import Mathlib

/-!
Verification of the mcp-trino access-control core against its specification.

Go strings are modelled as `List Char` (sequences of Unicode scalar values);
ASCII models of `strings.ToLower`, `strings.TrimSpace`, `strings.EqualFold`
are used, which coincide with the Go originals on ASCII input.
The SQL read-only classifier, the allowlist filters, the configuration
constructor and the OAuth callback state handling are translated from the
repository's Go sources (internal/trino/client.go, internal/config/config.go,
internal/oauth); regular-expression passes are translated into equivalent
explicit scanners implementing Go RE2 leftmost-first matching for the
concrete patterns appearing in the source.
-/

/-- Go strings, modelled as lists of Unicode scalar values. -/
abbrev GoStr := List Char

/-- The single-quote character, written numerically. -/
def sqChar : Char := Char.ofNat 39

/-- The double-quote character, written numerically. -/
def dqChar : Char := Char.ofNat 34

/-- The backtick character, written numerically. -/
def btChar : Char := Char.ofNat 96

/-- ASCII model of Go `unicode.ToLower` (as applied by `strings.ToLower`). -/
def goToLower (s : GoStr) : GoStr := s.map Char.toLower

/-- ASCII part of Go `unicode.IsSpace`: space, tab, newline, vertical tab,
form feed, carriage return. -/
def goIsSpace (c : Char) : Bool :=
  c = ' ' || c = '\t' || c = '\n' || c = Char.ofNat 11 || c = Char.ofNat 12 || c = '\r'

/-- Model of Go `strings.TrimSpace`: drop leading and trailing whitespace. -/
def goTrimSpace (s : GoStr) : GoStr :=
  ((s.dropWhile goIsSpace).reverse.dropWhile goIsSpace).reverse

/-- Model of Go `strings.ReplaceAll` for a single-character pattern and
single-character replacement. -/
def replaceAllChar (old new : Char) (s : GoStr) : GoStr :=
  s.map (fun c => if c = old then new else c)

/-- Model of Go `strings.EqualFold` restricted to ASCII case folding. -/
def goEqualFold (a b : GoStr) : Bool := goToLower a == goToLower b

/-- Model of Go `strings.Split` with a one-character separator. -/
def splitOnChar (sep : Char) : GoStr → List GoStr
  | [] => [[]]
  | c :: rest =>
    if c = sep then [] :: splitOnChar sep rest
    else
      match splitOnChar sep rest with
      | [] => [[c]]
      | p :: ps => (c :: p) :: ps

/-- Model of Go `strings.Count` with a one-character substring. -/
def countChar (c : Char) (s : GoStr) : Nat := (s.filter (fun x => x = c)).length

/-- Scanner for the quoted-literal regular expressions
`'(?:[^']|'')*'` and `"(?:[^"]|"")*"` of `sanitizeQueryForKeywordDetection`:
given the text following an opening quote `q`, return the remainder of the
text after the end of the leftmost-first (greedy, backtracking) match, or
`none` when no match starts at that opening quote.  The `fb` accumulator is
the remainder corresponding to closing at the first quote of the most
recently consumed doubled-quote pair, which is where the backtracking
search ends up when the text runs out. -/
def scanQuoted (q : Char) : Nat → GoStr → Option GoStr → Option GoStr
  | _, [], fb => fb
  | 0, _ :: _, fb => fb
  | Nat.succ n, c :: rest, fb =>
    if c = q then
      match rest with
      | c2 :: rest2 =>
        if c2 = q then scanQuoted q n rest2 (some (c2 :: rest2)) else some rest
      | [] => some []
    else scanQuoted q n rest fb

/-- Replace every match of the quoted regular expression that starts with
quote character `q` by `rep`, scanning left to right as Go
`Regexp.ReplaceAllString` does.  The fuel argument is at least the length of
the text. -/
def replaceQuoted (q : Char) (rep : GoStr) : Nat → GoStr → GoStr
  | _, [] => []
  | 0, s => s
  | Nat.succ n, c :: rest =>
    if c = q then
      match scanQuoted q (rest.length + 1) rest none with
      | some restAfter => rep ++ replaceQuoted q rep n restAfter
      | none => c :: rest
    else c :: replaceQuoted q rep n rest

/-- Strip `--` line comments per the regular expression `--[^\r\n]*`,
replacing each match with the empty string. -/
def stripLineComments : Nat → GoStr → GoStr
  | _, [] => []
  | 0, s => s
  | Nat.succ n, c :: rest =>
    if c = '-' then
      match rest with
      | c2 :: rest2 =>
        if c2 = '-' then
          stripLineComments n (rest2.dropWhile (fun ch => !(ch = '\r' || ch = '\n')))
        else c :: stripLineComments n rest
      | [] => [c]
    else c :: stripLineComments n rest

/-- Find the first `*/` in the text, returning the remainder after it. -/
def findBlockEnd : GoStr → Option GoStr
  | [] => none
  | c :: rest =>
    if c = '*' then
      match rest with
      | c2 :: rest2 => if c2 = '/' then some rest2 else findBlockEnd rest
      | [] => none
    else findBlockEnd rest

/-- Strip `/* ... */` block comments per the regular expression
`/\*[^*]*\*+(?:[^/*][^*]*\*+)*/`, which matches from each `/*` to the first
following `*/`. -/
def stripBlockComments : Nat → GoStr → GoStr
  | _, [] => []
  | 0, s => s
  | Nat.succ n, c :: rest =>
    if c = '/' then
      match rest with
      | c2 :: rest2 =>
        if c2 = '*' then
          match findBlockEnd rest2 with
          | some restAfter => stripBlockComments n restAfter
          | none => c :: rest
        else c :: stripBlockComments n rest
      | [] => [c]
    else c :: stripBlockComments n rest

/-- Translation of `sanitizeQueryForKeywordDetection` (client.go): replace
single-quoted string literals, double-quoted and backtick-quoted
identifiers, then strip line and block comments, then trim whitespace. -/
def sanitizeQueryForKeywordDetection (query : GoStr) : GoStr :=
  let q1 := replaceQuoted sqChar (sqChar :: ("LITERAL".data ++ [sqChar])) query.length query
  let q2 := replaceQuoted dqChar (dqChar :: ("IDENTIFIER".data ++ [dqChar])) q1.length q1
  let q3 := replaceQuoted btChar (btChar :: ("IDENTIFIER".data ++ [btChar])) q2.length q2
  let q4 := stripLineComments q3.length q3
  let q5 := stripBlockComments q4.length q4
  goTrimSpace q5

/-- Word character of the regular-expression class `\w`: `[0-9A-Za-z_]`. -/
def isWordChar (c : Char) : Bool := c.isAlpha || c.isDigit || c = '_'

/-- An optional neighbouring character is a word boundary side when it is
absent (text edge) or not a word character. -/
def nonWordOpt : Option Char → Bool
  | none => true
  | some c => !isWordChar c

/-- The keyword `kw` (made of word characters) occurs at the current
position, with `\b` boundaries on both sides; `prev` is the character
immediately before the position. -/
def wordAtHere (kw s : GoStr) (prev : Option Char) : Bool :=
  kw.isPrefixOf s && nonWordOpt prev && nonWordOpt (s.drop kw.length).head?

/-- Scan all positions of the text for a `\b kw \b` occurrence. -/
def containsWordAux (kw : GoStr) : Option Char → GoStr → Bool
  | prev, [] => wordAtHere kw [] prev
  | prev, c :: rest => wordAtHere kw (c :: rest) prev || containsWordAux kw (some c) rest

/-- Model of `regexp.MatchString` for the patterns `\b<op>\b` used by
`isReadOnlyQuery` for the write-operation scan. -/
def containsWord (kw s : GoStr) : Bool := containsWordAux kw none s

/-- Whitespace class `\s` of Go regular expressions: `[\t\n\f\r ]`. -/
def regexSpaceChar (c : Char) : Bool :=
  c = '\t' || c = '\n' || c = Char.ofNat 12 || c = '\r' || c = ' '

/-- Model of `regexp.MatchString` for the anchored patterns
`^\s*<kw>\b` used by `isReadOnlyQuery` for the read-only start check. -/
def readOnlyStart (kw s : GoStr) : Bool :=
  let r := s.dropWhile regexSpaceChar
  kw.isPrefixOf r && nonWordOpt (r.drop kw.length).head?

/-- The `writeOperations` list of `isReadOnlyQuery` (client.go). -/
def writeOperations : List GoStr :=
  ["insert".data, "update".data, "delete".data, "drop".data, "create".data,
   "alter".data, "truncate".data, "merge".data, "copy".data, "grant".data,
   "revoke".data, "commit".data, "rollback".data, "call".data, "execute".data,
   "refresh".data, "set".data, "reset".data]

/-- The keywords of the `readOnlyPrefixPatterns` list of `isReadOnlyQuery`. -/
def readOnlyKeywords : List GoStr :=
  ["select".data, "show".data, "describe".data, "explain".data, "with".data]

/-- Translation of `isReadOnlyQuery` (client.go): lower-case and trim,
normalise newlines to spaces, sanitise away literals/identifiers/comments,
reject on a remaining semicolon, reject on any write keyword as a whole
word anywhere, and finally accept only statements starting with a read-only
keyword. -/
def isReadOnlyQuery (query : GoStr) : Bool :=
  let queryLower := goToLower (goTrimSpace query)
  let queryLower := replaceAllChar '\n' ' ' queryLower
  let queryLower := replaceAllChar '\r' ' ' queryLower
  let queryLower := sanitizeQueryForKeywordDetection queryLower
  if queryLower.contains ';' then false
  else if writeOperations.any (fun op => containsWord op queryLower) then false
  else readOnlyKeywords.any (fun kw => readOnlyStart kw queryLower)

/-- The `TrinoConfig` structure (internal/config/config.go), with Go strings
as `GoStr` and the query timeout recorded in seconds. -/
structure TrinoConfig where
  host : GoStr
  port : Int
  user : GoStr
  password : GoStr
  catalog : GoStr
  schema : GoStr
  scheme : GoStr
  ssl : Bool
  sslInsecure : Bool
  allowWriteQueries : Bool
  queryTimeoutSec : Int
  oauthEnabled : Bool
  oauthMode : GoStr
  oauthProvider : GoStr
  jwtSecret : GoStr
  oidcIssuer : GoStr
  oidcAudience : GoStr
  oidcClientID : GoStr
  oidcClientSecret : GoStr
  oauthRedirectURIs : GoStr
  allowedCatalogs : List GoStr
  allowedSchemas : List GoStr
  allowedTables : List GoStr
deriving DecidableEq

/-- Result rows of a query, as the Go code builds them: one association
list of column name to rendered value per row. -/
abbrev Rows := List (List (GoStr × GoStr))

/-- The security-restriction error returned by `Client.ExecuteQuery` when a
non-read-only query is rejected. -/
def securityRestrictionError : GoStr :=
  ("security restriction: only SELECT, SHOW, DESCRIBE, and EXPLAIN queries are allowed. Set TRINO_ALLOW_WRITE_QUERIES=true to enable write operations (at your own risk)").data

/-- Translation of `Client.ExecuteQuery` (client.go).  The database engine
is abstracted as a function `db` from the submitted SQL text to either an
error or result rows; engine errors are wrapped as in the source. -/
def ExecuteQuery (cfg : TrinoConfig) (db : GoStr → Except GoStr Rows) (query : GoStr) :
    Except GoStr Rows :=
  if !cfg.allowWriteQueries && !isReadOnlyQuery query then
    Except.error securityRestrictionError
  else
    match db query with
    | Except.error e => Except.error ("query execution failed: ".data ++ e)
    | Except.ok rows => Except.ok rows

/-- Translation of `Client.isCatalogAllowed` (client.go): linear scan of the
catalog allowlist with case-insensitive comparison; an empty allowlist
falls through the loop to `false`. -/
def isCatalogAllowed (cfg : TrinoConfig) (catalog : GoStr) : Bool :=
  cfg.allowedCatalogs.any (fun allowed => goEqualFold catalog allowed)

/-- Translation of `Client.isSchemaAllowed` (client.go): compare
`catalog.schema` case-insensitively against the schema allowlist. -/
def isSchemaAllowed (cfg : TrinoConfig) (catalog schema : GoStr) : Bool :=
  let fullSchemaName := catalog ++ ['.'] ++ schema
  cfg.allowedSchemas.any (fun allowed => goEqualFold fullSchemaName allowed)

/-- Translation of `Client.isTableAllowed` (client.go): compare
`catalog.schema.table` case-insensitively against the table allowlist. -/
def isTableAllowed (cfg : TrinoConfig) (catalog schema table : GoStr) : Bool :=
  let fullTableName := catalog ++ ['.'] ++ schema ++ ['.'] ++ table
  cfg.allowedTables.any (fun allowed => goEqualFold fullTableName allowed)

/-- Translation of `Client.filterCatalogs` (client.go). -/
def filterCatalogs (cfg : TrinoConfig) (catalogs : List GoStr) : List GoStr :=
  if cfg.allowedCatalogs.length = 0 then catalogs
  else catalogs.filter (fun catalog => isCatalogAllowed cfg catalog)

/-- Translation of `Client.filterSchemas` (client.go). -/
def filterSchemas (cfg : TrinoConfig) (schemas : List GoStr) (catalog : GoStr) : List GoStr :=
  if cfg.allowedSchemas.length = 0 then schemas
  else schemas.filter (fun schema => isSchemaAllowed cfg catalog schema)

/-- Translation of `Client.filterTables` (client.go). -/
def filterTables (cfg : TrinoConfig) (tables : List GoStr) (catalog schema : GoStr) : List GoStr :=
  if cfg.allowedTables.length = 0 then tables
  else tables.filter (fun table => isTableAllowed cfg catalog schema table)

/-- Lookup of `row[col]` with the string type assertion of the Go code. -/
def lookupRow (row : List (GoStr × GoStr)) (col : GoStr) : Option GoStr :=
  (row.find? (fun p => p.1 == col)).map (fun p => p.2)

/-- Translation of `Client.ListTables` (client.go): default the catalog and
schema, run `SHOW TABLES FROM catalog.schema` through `ExecuteQuery`,
extract the `Table` column, and filter against the table allowlist exactly
when that allowlist is non-empty. -/
def ListTables (cfg : TrinoConfig) (db : GoStr → Except GoStr Rows) (catalog schema : GoStr) :
    Except GoStr (List GoStr) :=
  let catalog := if catalog = [] then cfg.catalog else catalog
  let schema := if schema = [] then cfg.schema else schema
  match ExecuteQuery cfg db ("SHOW TABLES FROM ".data ++ catalog ++ ['.'] ++ schema) with
  | Except.error e => Except.error e
  | Except.ok results =>
    let tables := results.filterMap (fun row => lookupRow row "Table".data)
    Except.ok (if cfg.allowedTables.length > 0 then filterTables cfg tables catalog schema
               else tables)

/-- The parameter-resolution step of `Client.GetTableSchema` (client.go):
split the table reference on `.` and derive catalog, schema and table from
the number of segments, falling back to the configured defaults. -/
def resolveTable (cfg : TrinoConfig) (catalog schema table : GoStr) :
    GoStr × GoStr × GoStr :=
  let parts := splitOnChar '.' table
  if parts.length = 3 then
    (parts.getD 0 [], parts.getD 1 [], parts.getD 2 [])
  else if parts.length = 2 then
    ((if catalog = [] then cfg.catalog else catalog), parts.getD 0 [], parts.getD 1 [])
  else
    ((if catalog = [] then cfg.catalog else catalog),
     (if schema = [] then cfg.schema else schema), table)

/-- Translation of `Client.GetTableSchema` (client.go): resolve the table
reference first, apply the table allowlist check on the resolved identity,
then run `DESCRIBE catalog.schema.table`. -/
def GetTableSchema (cfg : TrinoConfig) (db : GoStr → Except GoStr Rows)
    (catalog schema table : GoStr) : Except GoStr Rows :=
  let r := resolveTable cfg catalog schema table
  let catalog := r.1
  let schema := r.2.1
  let table := r.2.2
  if cfg.allowedTables.length > 0 && !isTableAllowed cfg catalog schema table then
    Except.error ("table access denied: ".data ++ catalog ++ ['.'] ++ schema ++ ['.'] ++ table
      ++ " not in allowlist".data)
  else
    ExecuteQuery cfg db ("DESCRIBE ".data ++ catalog ++ ['.'] ++ schema ++ ['.'] ++ table)

/-- The process environment, as consulted through `os.LookupEnv`. -/
abbrev Env := GoStr → Option GoStr

/-- Translation of `getEnv` (config.go): environment variable with default. -/
def getEnv (env : Env) (key fallback : GoStr) : GoStr := (env key).getD fallback

/-- Model of `os.Getenv`: empty string when the variable is unset. -/
def osGetenv (env : Env) (key : GoStr) : GoStr := (env key).getD []

/-- Model of `strconv.ParseBool` as used with a discarded error: the
accepted true spellings yield `true`; every other string (including the
false spellings and unparsable input) yields `false`. -/
def goParseBool (s : GoStr) : Bool :=
  ["1".data, "t".data, "T".data, "TRUE".data, "true".data, "True".data].contains s

/-- Digits of a decimal literal accumulated to a value, `none` on a
non-digit. -/
def digitsVal : GoStr → Option Nat
  | [] => some 0
  | c :: rest =>
    if c.isDigit then
      (digitsVal rest).map (fun v => (c.toNat - 48) * 10 ^ rest.length + v)
    else none

/-- Model of `strconv.Atoi`: optional sign, one or more digits, nothing
else; `none` models a non-nil error. -/
def goAtoi : GoStr → Option Int
  | [] => none
  | c :: rest =>
    if c = '-' then
      match rest with
      | [] => none
      | _ => (digitsVal rest).map (fun v => -(v : Int))
    else if c = '+' then
      match rest with
      | [] => none
      | _ => (digitsVal rest).map (fun v => (v : Int))
    else (digitsVal (c :: rest)).map (fun v => (v : Int))

/-- Translation of `parseAllowlist` (config.go): split the comma-separated
value, trim each entry, and drop entries that are empty after trimming. -/
def parseAllowlist (value : GoStr) : List GoStr :=
  if value = [] then []
  else ((splitOnChar ',' value).map goTrimSpace).filter (fun s => !(s == []))

/-- Decimal digits of a number, for error-message formatting. -/
def natDigitsAux : Nat → Nat → GoStr
  | 0, _ => []
  | Nat.succ fuel, n =>
    if n < 10 then [Char.ofNat (48 + n)]
    else natDigitsAux fuel (n / 10) ++ [Char.ofNat (48 + n % 10)]

/-- Decimal rendering of a natural number. -/
def natToG (n : Nat) : GoStr := natDigitsAux (n + 1) n

/-- Translation of `validateAllowlist` (config.go): every entry must
contain exactly `expectedDots` dots; the first offending entry produces the
error. -/
def validateAllowlist (envVar : GoStr) (allowlist : List GoStr) (expectedDots : Nat) :
    Except GoStr Unit :=
  match allowlist.find? (fun item => !(countChar '.' item == expectedDots)) with
  | some item =>
    Except.error ("invalid format in ".data ++ envVar ++ ": ".data ++ [sqChar] ++ item
      ++ [sqChar] ++ " (expected ".data ++ natToG expectedDots ++ " dots, found ".data
      ++ natToG (countChar '.' item) ++ " )".data)
  | none => Except.ok ()

/-- The valid OAuth providers checked by `NewTrinoConfig`. -/
def validProviders : List GoStr :=
  ["hmac".data, "okta".data, "google".data, "azure".data]

/-- OAuth validation tail of `NewTrinoConfig` (internal/config/config.go):
validate the OAuth mode, and when OAuth is enabled validate the provider
tag, the HMAC signing secret and the OIDC audience; only then return the
already-built configuration value. -/
def checkOAuthConfig (oauthMode oauthProvider : GoStr) (oauthEnabled : Bool)
    (jwtSecret oidcAudience : GoStr) (cfg0 : TrinoConfig) : Except GoStr TrinoConfig :=
  if !(oauthMode == ("native").data) && !(oauthMode == ("proxy").data) then
    Except.error ("invalid OAuth mode ".data ++ [sqChar] ++ oauthMode ++ [sqChar]
      ++ ". Supported modes: native, proxy".data)
  else if oauthEnabled && !(validProviders.contains oauthProvider) then
    Except.error ("invalid OAuth provider ".data ++ [sqChar] ++ oauthProvider ++ [sqChar]
      ++ ". Supported providers: hmac, okta, google, azure".data)
  else if oauthEnabled && oauthProvider == ("hmac").data && jwtSecret == [] then
    Except.error ("security error: JWT_SECRET is required when using HMAC provider. Set JWT_SECRET environment variable").data
  else if oauthEnabled && !(oauthProvider == ("hmac").data) && oidcAudience == [] then
    Except.error ("security error: OIDC_AUDIENCE is required for ".data ++ oauthProvider
      ++ " provider. Set OIDC_AUDIENCE environment variable to your service-specific audience".data)
  else Except.ok cfg0

/-- Translation of `NewTrinoConfig` (internal/config/config.go): read and
parse the environment, validate the allowlist formats, force SSL for the
https scheme, validate the OAuth mode, and when OAuth is enabled validate
the provider, the HMAC signing secret and the OIDC audience; on success
build the `TrinoConfig` value.  Logging statements of the source have no
observable effect and are omitted. -/
def NewTrinoConfig (env : Env) : Except GoStr TrinoConfig :=
  let port := (goAtoi (getEnv env "TRINO_PORT".data "8080".data)).getD 0
  let ssl := goParseBool (getEnv env "TRINO_SSL".data "true".data)
  let sslInsecure := goParseBool (getEnv env "TRINO_SSL_INSECURE".data "true".data)
  let scheme := getEnv env "TRINO_SCHEME".data "https".data
  let allowWriteQueries := goParseBool (getEnv env "TRINO_ALLOW_WRITE_QUERIES".data "false".data)
  let oauthMode := goToLower (getEnv env "OAUTH_MODE".data "native".data)
  let provider0 := goToLower (getEnv env "OAUTH_PROVIDER".data [])
  let oauthProvider := if provider0 = [] then "hmac".data else provider0
  let oauthEnabled :=
    if provider0 = [] then goParseBool (getEnv env "OAUTH_ENABLED".data "false".data)
    else if osGetenv env "OAUTH_ENABLED".data = [] then true
    else goParseBool (osGetenv env "OAUTH_ENABLED".data)
  let jwtSecret := getEnv env "JWT_SECRET".data []
  let oidcIssuer := getEnv env "OIDC_ISSUER".data []
  let oidcAudience := getEnv env "OIDC_AUDIENCE".data []
  let oidcClientID := getEnv env "OIDC_CLIENT_ID".data []
  let oidcClientSecret := getEnv env "OIDC_CLIENT_SECRET".data []
  let oauthRedirectURIs0 := getEnv env "OAUTH_REDIRECT_URI".data []
  let oauthAllowedRedirects := getEnv env "OAUTH_ALLOWED_REDIRECT_URIS".data []
  let oauthRedirectURIs :=
    if oauthRedirectURIs0 = [] then oauthAllowedRedirects else oauthRedirectURIs0
  let timeoutStr := getEnv env "TRINO_QUERY_TIMEOUT".data "30".data
  let timeoutInt :=
    match goAtoi timeoutStr with
    | none => (30 : Int)
    | some t => if t ≤ 0 then 30 else t
  let allowedCatalogs := parseAllowlist (getEnv env "TRINO_ALLOWED_CATALOGS".data [])
  let allowedSchemas := parseAllowlist (getEnv env "TRINO_ALLOWED_SCHEMAS".data [])
  let allowedTables := parseAllowlist (getEnv env "TRINO_ALLOWED_TABLES".data [])
  match validateAllowlist "TRINO_ALLOWED_SCHEMAS".data allowedSchemas 1 with
  | Except.error e => Except.error e
  | Except.ok _ =>
  match validateAllowlist "TRINO_ALLOWED_TABLES".data allowedTables 2 with
  | Except.error e => Except.error e
  | Except.ok _ =>
    checkOAuthConfig oauthMode oauthProvider oauthEnabled jwtSecret oidcAudience
      { host := getEnv env "TRINO_HOST".data "localhost".data
        port := port
        user := getEnv env "TRINO_USER".data "trino".data
        password := getEnv env "TRINO_PASSWORD".data []
        catalog := getEnv env "TRINO_CATALOG".data "memory".data
        schema := getEnv env "TRINO_SCHEMA".data "default".data
        scheme := scheme
        ssl := if goEqualFold scheme "https".data then true else ssl
        sslInsecure := sslInsecure
        allowWriteQueries := allowWriteQueries
        queryTimeoutSec := timeoutInt
        oauthEnabled := oauthEnabled
        oauthMode := oauthMode
        oauthProvider := oauthProvider
        jwtSecret := jwtSecret
        oidcIssuer := oidcIssuer
        oidcAudience := oidcAudience
        oidcClientID := oidcClientID
        oidcClientSecret := oidcClientSecret
        oauthRedirectURIs := oauthRedirectURIs
        allowedCatalogs := allowedCatalogs
        allowedSchemas := allowedSchemas
        allowedTables := allowedTables }

/-- The opening-brace character, written numerically. -/
def lbChar : Char := Char.ofNat 123

/-- The closing-brace character, written numerically. -/
def rbChar : Char := Char.ofNat 125

/-- Alphabet of Go `base64.URLEncoding`. -/
def b64Alphabet : GoStr :=
  ("ABCDEFGHIJKLMNOPQRSTUVWXYZabcdefghijklmnopqrstuvwxyz0123456789-_").data

/-- Character of the URL-safe base64 alphabet at a 6-bit value. -/
def b64Char (n : Nat) : Char := b64Alphabet.getD n 'A'

/-- Six-bit value of a URL-safe base64 character, `none` outside the
alphabet. -/
def b64Val (c : Char) : Option Nat := b64Alphabet.indexOf? c

/-- Model of `base64.URLEncoding.EncodeToString`: encode byte triples into
four alphabet characters, padding a final one- or two-byte group with
`=`. -/
def b64Encode : List Nat → GoStr
  | [] => []
  | [b0] => [b64Char (b0 / 4), b64Char (b0 % 4 * 16), '=', '=']
  | [b0, b1] => [b64Char (b0 / 4), b64Char (b0 % 4 * 16 + b1 / 16), b64Char (b1 % 16 * 4), '=']
  | b0 :: b1 :: b2 :: rest =>
    [b64Char (b0 / 4), b64Char (b0 % 4 * 16 + b1 / 16), b64Char (b1 % 16 * 4 + b2 / 64),
     b64Char (b2 % 64)] ++ b64Encode rest

/-- Core of `base64.URLEncoding.DecodeString`: decode four-character groups,
accepting `=` padding only at the end; `none` models a decode error. -/
def b64DecodeQuads : GoStr → Option (List Nat)
  | [] => some []
  | c0 :: c1 :: c2 :: c3 :: rest =>
    (match b64Val c0, b64Val c1 with
     | some v0, some v1 =>
       if c2 = '=' then
         if c3 = '=' ∧ rest = [] then some [v0 * 4 + v1 / 16] else none
       else
         match b64Val c2 with
         | some v2 =>
           if c3 = '=' then
             if rest = [] then some [v0 * 4 + v1 / 16, v1 % 16 * 16 + v2 / 4] else none
           else
             match b64Val c3 with
             | some v3 =>
               (b64DecodeQuads rest).map
                 (fun bs => (v0 * 4 + v1 / 16) :: (v1 % 16 * 16 + v2 / 4) :: (v2 % 4 * 64 + v3) :: bs)
             | none => none
         | none => none
     | _, _ => none)
  | _ => none

/-- Model of `base64.URLEncoding.DecodeString`, which ignores carriage
returns and newlines before decoding. -/
def b64Decode (s : GoStr) : Option (List Nat) :=
  b64DecodeQuads (s.filter (fun c => !(c = '\r' || c = '\n')))

/-- UTF-8 bytes of one Unicode scalar value. -/
def utf8EncodeChar (c : Char) : List Nat :=
  let n := c.toNat
  if n < 128 then [n]
  else if n < 2048 then [192 + n / 64, 128 + n % 64]
  else if n < 65536 then [224 + n / 4096, 128 + n / 64 % 64, 128 + n % 64]
  else [240 + n / 262144, 128 + n / 4096 % 64, 128 + n / 64 % 64, 128 + n % 64]

/-- UTF-8 bytes of a string (Go strings are byte sequences; the model keeps
them as scalar values and converts at the base64 boundary). -/
def utf8Encode (s : GoStr) : List Nat := (s.map utf8EncodeChar).flatten

/-- The Unicode replacement character U+FFFD. -/
def fffdChar : Char := Char.ofNat 65533

/-- Model of Go `utf8.DecodeRune` restricted to one step: given the first
byte and the following bytes, return the decoded scalar value and the
number of bytes consumed.  Invalid, overlong, surrogate, out-of-range and
incomplete sequences yield `(U+FFFD, 1)`, exactly as `DecodeRune` does. -/
def runeStep (b0 : Nat) (rest : List Nat) : Char × Nat :=
  if b0 < 128 then (Char.ofNat b0, 1)
  else if b0 < 194 then (fffdChar, 1)
  else if b0 < 224 then
    match rest with
    | b1 :: _ =>
      if 128 ≤ b1 ∧ b1 < 192 then (Char.ofNat ((b0 - 192) * 64 + (b1 - 128)), 2)
      else (fffdChar, 1)
    | [] => (fffdChar, 1)
  else if b0 < 240 then
    match rest with
    | b1 :: b2 :: _ =>
      if (if b0 = 224 then 160 ≤ b1 ∧ b1 < 192
          else if b0 = 237 then 128 ≤ b1 ∧ b1 < 160
          else 128 ≤ b1 ∧ b1 < 192) ∧ (128 ≤ b2 ∧ b2 < 192) then
        (Char.ofNat ((b0 - 224) * 4096 + (b1 - 128) * 64 + (b2 - 128)), 3)
      else (fffdChar, 1)
    | _ => (fffdChar, 1)
  else if b0 < 245 then
    match rest with
    | b1 :: b2 :: b3 :: _ =>
      if (if b0 = 240 then 144 ≤ b1 ∧ b1 < 192
          else if b0 = 244 then 128 ≤ b1 ∧ b1 < 144
          else 128 ≤ b1 ∧ b1 < 192) ∧ (128 ≤ b2 ∧ b2 < 192) ∧ (128 ≤ b3 ∧ b3 < 192) then
        (Char.ofNat ((b0 - 240) * 262144 + (b1 - 128) * 4096 + (b2 - 128) * 64 + (b3 - 128)), 4)
      else (fffdChar, 1)
    | _ => (fffdChar, 1)
  else (fffdChar, 1)

/-- Iterate `runeStep` over a byte list; the fuel is at least the list
length.  This never fails: malformed input turns into replacement
characters, as it does inside Go's JSON string decoding. -/
def utf8L : Nat → List Nat → List Char
  | _, [] => []
  | 0, _ :: _ => []
  | fuel + 1, b0 :: rest =>
    (runeStep b0 rest).1 :: utf8L fuel (rest.drop ((runeStep b0 rest).2 - 1))

/-- Total conversion of the base64-decoded bytes to scalar values.  Go's
JSON decoder works on the bytes directly and coerces invalid UTF-8 inside
string values to U+FFFD (`utf8.DecodeRune` semantics); invalid bytes
outside string values surface as replacement characters that the
structural parser then rejects, matching Go's syntax error there. -/
def utf8DecodeLenient (bs : List Nat) : List Char := utf8L bs.length bs

/-- Lower-case hexadecimal digit, as used by `encoding/json`. -/
def hexDigit (n : Nat) : Char := ("0123456789abcdef").data.getD n '0'

/-- Value of a hexadecimal digit character, accepting both cases. -/
def hexVal (c : Char) : Option Nat :=
  if c.isDigit then some (c.toNat - 48)
  else if 'a' ≤ c ∧ c ≤ 'f' then some (c.toNat - 87)
  else if 'A' ≤ c ∧ c ≤ 'F' then some (c.toNat - 55)
  else none

/-- Escaping of one character inside a JSON string by `encoding/json`
(default encoder: HTML-sensitive characters and U+2028/U+2029 are also
escaped). -/
def jsonEscapeChar (c : Char) : GoStr :=
  if c = dqChar then ['\\', dqChar]
  else if c = '\\' then ['\\', '\\']
  else if c = '\n' then ['\\', 'n']
  else if c = '\r' then ['\\', 'r']
  else if c = '\t' then ['\\', 't']
  else if c.toNat < 32 then
    ("\\u00").data ++ [hexDigit (c.toNat / 16), hexDigit (c.toNat % 16)]
  else if c = '<' then ("\\u003c").data
  else if c = '>' then ("\\u003e").data
  else if c = '&' then ("\\u0026").data
  else if c = Char.ofNat 8232 then ("\\u2028").data
  else if c = Char.ofNat 8233 then ("\\u2029").data
  else [c]

/-- JSON string literal for a Go string value. -/
def jsonQuote (s : GoStr) : GoStr := dqChar :: (s.map jsonEscapeChar).flatten ++ [dqChar]

/-- Output of `json.Marshal` on the `map[string]string` built by
`HandleAuthorize` (keys serialised in sorted order: `redirect` before
`state`). -/
def jsonMarshalState (state redirect : GoStr) : GoStr :=
  [lbChar] ++ jsonQuote ("redirect").data ++ [':'] ++ jsonQuote redirect ++ [',']
    ++ jsonQuote ("state").data ++ [':'] ++ jsonQuote state ++ [rbChar]

/-- The proxy-mode state parameter produced by `HandleAuthorize`
(metadata.go): JSON-encode the client state and client redirect URI, then
base64url-encode the bytes. -/
def encodeStateParam (state clientRedirectURI : GoStr) : GoStr :=
  b64Encode (utf8Encode (jsonMarshalState state clientRedirectURI))

/-- JSON whitespace. -/
def jsonWs (c : Char) : Bool := c = ' ' || c = '\t' || c = '\n' || c = '\r'

/-- Read four hexadecimal digits. -/
def parseHex4 : GoStr → Option (Nat × GoStr)
  | c0 :: c1 :: c2 :: c3 :: rest =>
    (match hexVal c0, hexVal c1, hexVal c2, hexVal c3 with
     | some v0, some v1, some v2, some v3 =>
       some (v0 * 4096 + v1 * 256 + v2 * 16 + v3, rest)
     | _, _, _, _ => none)
  | _ => none

/-- Body of a JSON string after the opening quote: decode characters and
escapes up to the closing quote, returning the content and the remainder
after the closing quote.  Surrogate escapes follow the Go decoder: a valid
high/low pair combines, an unpaired surrogate becomes U+FFFD. -/
def parseStringBody : Nat → GoStr → Option (GoStr × GoStr)
  | 0, _ => none
  | _ + 1, [] => none
  | fuel + 1, c :: rest =>
    if c = dqChar then some ([], rest)
    else if c = '\\' then
      match rest with
      | [] => none
      | e :: rest2 =>
        if e = dqChar then
          (parseStringBody fuel rest2).map (fun p => (dqChar :: p.1, p.2))
        else if e = '\\' then
          (parseStringBody fuel rest2).map (fun p => ('\\' :: p.1, p.2))
        else if e = '/' then
          (parseStringBody fuel rest2).map (fun p => ('/' :: p.1, p.2))
        else if e = 'b' then
          (parseStringBody fuel rest2).map (fun p => (Char.ofNat 8 :: p.1, p.2))
        else if e = 'f' then
          (parseStringBody fuel rest2).map (fun p => (Char.ofNat 12 :: p.1, p.2))
        else if e = 'n' then
          (parseStringBody fuel rest2).map (fun p => ('\n' :: p.1, p.2))
        else if e = 'r' then
          (parseStringBody fuel rest2).map (fun p => ('\r' :: p.1, p.2))
        else if e = 't' then
          (parseStringBody fuel rest2).map (fun p => ('\t' :: p.1, p.2))
        else if e = 'u' then
          match parseHex4 rest2 with
          | none => none
          | some (v, rest3) =>
            if v < 55296 ∨ 57344 ≤ v then
              (parseStringBody fuel rest3).map (fun p => (Char.ofNat v :: p.1, p.2))
            else if v < 56320 then
              match rest3 with
              | a :: b :: rest4 =>
                if a = '\\' ∧ b = 'u' then
                  match parseHex4 rest4 with
                  | some (w, rest5) =>
                    if 56320 ≤ w ∧ w < 57344 then
                      (parseStringBody fuel rest5).map
                        (fun p => (Char.ofNat (65536 + (v - 55296) * 1024 + (w - 56320)) :: p.1, p.2))
                    else
                      (parseStringBody fuel rest3).map (fun p => (Char.ofNat 65533 :: p.1, p.2))
                  | none =>
                    (parseStringBody fuel rest3).map (fun p => (Char.ofNat 65533 :: p.1, p.2))
                else (parseStringBody fuel rest3).map (fun p => (Char.ofNat 65533 :: p.1, p.2))
              | _ => (parseStringBody fuel rest3).map (fun p => (Char.ofNat 65533 :: p.1, p.2))
            else
              (parseStringBody fuel rest3).map (fun p => (Char.ofNat 65533 :: p.1, p.2))
        else none
    else if c.toNat < 32 then none
    else (parseStringBody fuel rest).map (fun p => (c :: p.1, p.2))

/-- Parse a JSON string literal (opening quote required). -/
def parseJSONString (s : GoStr) : Option (GoStr × GoStr) :=
  match s with
  | c :: rest => if c = dqChar then parseStringBody (rest.length + 1) rest else none
  | [] => none

/-- Parse one member value as `json.Unmarshal` into a `map[string]string`
accepts it: a JSON string, or the literal `null`, which Go stores as the
zero value `""` without error. -/
def parseValue (s : GoStr) : Option (GoStr × GoStr) :=
  match s with
  | c :: rest =>
    if c = dqChar then parseJSONString s
    else if c = 'n' then
      match rest with
      | u :: l1 :: l2 :: r3 =>
        if u = 'u' ∧ l1 = 'l' ∧ l2 = 'l' then some ([], r3) else none
      | _ => none
    else none
  | [] => none

/-- Parse the members of a JSON object whose values are strings or `null`
(the shape `json.Unmarshal` accepts for a `map[string]string`); the input
starts at a key. -/
def parseMembers : Nat → GoStr → Option (List (GoStr × GoStr) × GoStr)
  | 0, _ => none
  | fuel + 1, s =>
    match parseJSONString s with
    | none => none
    | some (k, r1) =>
      match r1.dropWhile jsonWs with
      | c :: r2 =>
        if c = ':' then
          match parseValue (r2.dropWhile jsonWs) with
          | none => none
          | some (v, r3) =>
            match r3.dropWhile jsonWs with
            | d :: r4 =>
              if d = ',' then
                (parseMembers fuel (r4.dropWhile jsonWs)).map
                  (fun p => ((k, v) :: p.1, p.2))
              else if d = rbChar then some ([(k, v)], r4)
              else none
            | [] => none
        else none
      | [] => none

/-- Model of `json.Unmarshal` into a `map[string]string`: a JSON object
with string or null values and no trailing data; the resulting association
list keeps insertion order. -/
def unmarshalStringMap (s : GoStr) : Option (List (GoStr × GoStr)) :=
  match s.dropWhile jsonWs with
  | c :: rest =>
    if c = lbChar then
      match rest.dropWhile jsonWs with
      | d :: rest2 =>
        if d = rbChar then
          if rest2.dropWhile jsonWs = [] then some [] else none
        else
          match parseMembers ((d :: rest2).length + 1) (d :: rest2) with
          | some (m, after) => if after.dropWhile jsonWs = [] then some m else none
          | none => none
      | [] => none
    else none
  | [] => none

/-- Lookup in the unmarshalled map; a later duplicate key overwrites an
earlier one, as for a Go map built by insertion. -/
def mapGet (m : List (GoStr × GoStr)) (k : GoStr) : Option GoStr :=
  (m.reverse.find? (fun p => p.1 == k)).map (fun p => p.2)

/-- The structured state decoding attempted by `HandleCallback`
(metadata.go): base64url-decode, JSON-unmarshal into a string map, then
require both the `state` and the `redirect` keys. -/
def decodeStateStructured (state : GoStr) : Option (GoStr × GoStr) :=
  match b64Decode state with
  | none => none
  | some bytes =>
    match unmarshalStringMap (utf8DecodeLenient bytes) with
    | none => none
    | some m =>
      match mapGet m ("state").data, mapGet m ("redirect").data with
      | some s, some r => some (s, r)
      | _, _ => none

/-- The `OAuth2Config` structure (metadata.go), fields relevant to the
flow handlers. -/
structure OAuth2Config where
  enabled : Bool
  provider : GoStr
  redirectURI : GoStr
  issuer : GoStr
  audience : GoStr
  clientID : GoStr
  clientSecret : GoStr
deriving DecidableEq

/-- Observable outcome of `HandleCallback`: an HTTP error, a redirect, or
the rendered success page. -/
inductive CallbackAction where
  | httpError (msg : GoStr) (status : Nat)
  | redirect (url : GoStr)
  | successPage (code state : GoStr)
deriving DecidableEq

/-- Whether a callback outcome is the fallback success page. -/
def isSuccessPage : CallbackAction → Bool
  | CallbackAction.successPage _ _ => true
  | _ => false

/-- Split at the first occurrence of `sep`, as `strings.SplitN(s, sep, 2)`
does when `s` contains `sep` (`HandleCallback` only splits after a
`strings.Contains` check). -/
def splitOnceChar (sep : Char) : GoStr → GoStr × GoStr
  | [] => ([], [])
  | c :: rest =>
    if c = sep then ([], rest)
    else
      let p := splitOnceChar sep rest
      (c :: p.1, p.2)

/-- Translation of `OAuth2Handler.HandleCallback` (metadata.go) for GET
requests: handle a provider error, require a code, and in proxy mode
(fixed redirect URI configured) try the structured state decoding, then the
legacy pipe-delimited format, falling back to the success page. -/
def HandleCallback (cfg : OAuth2Config) (code state errorParam errorDesc : GoStr) :
    CallbackAction :=
  if !(errorParam == []) then
    CallbackAction.httpError ("Authorization failed: ".data ++ errorDesc) 400
  else if code == [] then
    CallbackAction.httpError ("No authorization code received").data 400
  else if !(cfg.redirectURI == []) then
    match decodeStateStructured state with
    | some p =>
      CallbackAction.redirect (p.2 ++ "?code=".data ++ code ++ "&state=".data ++ p.1)
    | none =>
      if state.contains '|' then
        let parts := splitOnceChar '|' state
        if parts.1.contains '|' || parts.2.contains '|' then
          CallbackAction.successPage code state
        else
          CallbackAction.redirect (parts.2 ++ "?code=".data ++ code ++ "&state=".data ++ parts.1)
      else CallbackAction.successPage code state
  else CallbackAction.successPage code state

/-- Audience claim of a JWT, as `encoding/json` surfaces it: absent, a
single string, or a list of strings. -/
inductive AudClaim where
  | absent : AudClaim
  | one (a : GoStr) : AudClaim
  | many (l : List GoStr) : AudClaim
deriving DecidableEq

/-- Modelled from the spec: the `HMACValidator` implementation
(internal/oauth/providers.go) is not part of the sources here — only its
unit tests are — so tokens are modelled abstractly.  A token carries its
claims and the secret its HMAC-SHA256 signature was produced with; the
signature verifies exactly when that secret equals the validator's
configured secret. -/
structure HMACToken where
  sub : GoStr
  aud : AudClaim
  signingSecret : GoStr
deriving DecidableEq

/-- Configured HMAC validator: shared signing secret and expected
audience, both required at initialization. -/
structure HMACValidator where
  secret : GoStr
  audience : GoStr
deriving DecidableEq

/-- Modelled from the spec: the audience check of `HMACValidator`
(internal/oauth/providers.go, not in the sources here).  A single-string
claim must equal the configured audience exactly; a list-valued claim must
contain it; an absent claim is a distinct missing-claim failure.  Error
texts follow the expected strings of
`TestHMACValidator_AudienceValidation`. -/
def validateAudience (expected : GoStr) (aud : AudClaim) : Except GoStr Unit :=
  match aud with
  | AudClaim.absent => Except.error ("missing audience claim").data
  | AudClaim.one a =>
    if a == expected then Except.ok ()
    else
      Except.error ("invalid audience: expected ".data ++ expected ++ ", got ".data ++ a)
  | AudClaim.many l =>
    if l.contains expected then Except.ok ()
    else
      Except.error ("invalid audience: expected ".data ++ expected
        ++ " not found in audience list".data)

/-- Modelled from the spec: `HMACValidator.ValidateToken`
(internal/oauth/providers.go, not in the sources here).  Verify the
signature with the configured secret, then verify the audience claim; on
success return the identity (subject). -/
def ValidateToken (v : HMACValidator) (tok : HMACToken) : Except GoStr GoStr :=
  if !(tok.signingSecret == v.secret) then
    Except.error ("signature is invalid").data
  else
    match validateAudience v.audience tok.aud with
    | Except.error e => Except.error ("audience validation failed: ".data ++ e)
    | Except.ok _ => Except.ok tok.sub

/-- The audience-acceptance predicate in the words of the specification:
a single-string claim equals the configured audience; a list claim
contains it; an absent claim never matches. -/
def audMatchesSpec (expected : GoStr) : AudClaim → Prop
  | AudClaim.absent => False
  | AudClaim.one a => a = expected
  | AudClaim.many l => expected ∈ l

/-- Baseline configuration value used for concrete instantiations: the
defaults of `NewTrinoConfig`, with default catalog `c` and schema `s`. -/
def cfgBase : TrinoConfig where
  host := "localhost".data
  port := 8080
  user := "trino".data
  password := []
  catalog := "c".data
  schema := "s".data
  scheme := "https".data
  ssl := true
  sslInsecure := true
  allowWriteQueries := false
  queryTimeoutSec := 30
  oauthEnabled := false
  oauthMode := "native".data
  oauthProvider := "hmac".data
  jwtSecret := []
  oidcIssuer := []
  oidcAudience := []
  oidcClientID := []
  oidcClientSecret := []
  oauthRedirectURIs := []
  allowedCatalogs := []
  allowedSchemas := []
  allowedTables := []

/-- Configuration of the allowlist-independence scenario: schema allowlist
`{c.s1}`, table allowlist `{c.s1.t1}`. -/
def cfgC4 : TrinoConfig :=
  { cfgBase with allowedSchemas := ["c.s1".data], allowedTables := ["c.s1.t1".data] }

/-- Engine stub whose `SHOW TABLES` result reports tables `t1` and `t2`. -/
def dbTwoTables : GoStr → Except GoStr Rows := fun _ =>
  Except.ok [[("Table".data, "t1".data)], [("Table".data, "t2".data)]]

/-- Engine stub returning no rows. -/
def dbEmpty : GoStr → Except GoStr Rows := fun _ => Except.ok []

/-- C2: for every query, `ExecuteQuery` rejects with the security
restriction error — without consulting the engine, hence for any engine —
exactly when write queries are disallowed and the query is not classified
read-only; otherwise the engine is invoked on the query and its result
(wrapped on failure) is returned. -/
theorem C2_execute_query_gate (cfg : TrinoConfig) (db : GoStr → Except GoStr Rows) (q : GoStr) :
    (cfg.allowWriteQueries = false → isReadOnlyQuery q = false →
      ExecuteQuery cfg db q = Except.error securityRestrictionError ∧
      ∀ db2 : GoStr → Except GoStr Rows, ExecuteQuery cfg db2 q = ExecuteQuery cfg db q) ∧
    (cfg.allowWriteQueries = true ∨ isReadOnlyQuery q = true →
      ExecuteQuery cfg db q =
        match db q with
        | Except.error e => Except.error ("query execution failed: ".data ++ e)
        | Except.ok rows => Except.ok rows) := by
  constructor
  · intro hw hq
    refine ⟨by simp [ExecuteQuery, hw, hq], fun db2 => by simp [ExecuteQuery, hw, hq]⟩
  · rintro (h | h) <;> simp [ExecuteQuery, h]

/-- C2 witness: a concrete write query is rejected with the security
restriction error when write queries are disallowed. -/
theorem C2_execute_query_gate_witness :
    ExecuteQuery cfgBase dbEmpty ("DROP TABLE t").data
      = Except.error securityRestrictionError :=
  ((C2_execute_query_gate cfgBase dbEmpty ("DROP TABLE t").data).1 (by decide)
    (by decide)).1

/-- C4: evaluation of `ListTables` at the failing input of the
allowlist-independence scenario.  With table allowlist `{c.s1.t1}`, listing
the tables of schema `c.s1` yields only `t1` as documented, but listing the
tables of the unlisted schema `c.s2` yields no tables at all, where the
repository documentation and specification promise all of that schema's
tables (`t1` and `t2`). -/
theorem C4_list_tables_unlisted_schema :
    ListTables cfgC4 dbTwoTables ("c").data ("s1").data = Except.ok [("t1").data] ∧
    ListTables cfgC4 dbTwoTables ("c").data ("s2").data = Except.ok [] := by
  exact ⟨rfl, rfl⟩

/-- Configuration whose three allowlists are all empty. -/
def cfgEmptyAllow : TrinoConfig := cfgBase

/-- C5 counterexample: with an empty catalog allowlist,
`isCatalogAllowed` returns `false`, not `true` — and likewise for the
schema and table predicates — refuting the claim that each predicate
returns true unconditionally when its allowlist is empty. -/
theorem C5_empty_allowlist_counterexample :
    isCatalogAllowed cfgEmptyAllow ("c").data = false ∧
    isSchemaAllowed cfgEmptyAllow ("c").data ("s").data = false ∧
    isTableAllowed cfgEmptyAllow ("c").data ("s").data ("t").data = false := by
  refine ⟨by decide, by decide, by decide⟩

/-- C5 amended: when an allowlist is empty the corresponding predicate
returns `false` unconditionally; the unrestricted default is implemented
one level up, by the filter functions, which return their input unchanged
when the corresponding allowlist is empty. -/
theorem C5_empty_allowlist_behaviour (cfg : TrinoConfig) (c s t : GoStr) (xs : List GoStr) :
    (cfg.allowedCatalogs = [] →
      isCatalogAllowed cfg c = false ∧ filterCatalogs cfg xs = xs) ∧
    (cfg.allowedSchemas = [] →
      isSchemaAllowed cfg c s = false ∧ filterSchemas cfg xs c = xs) ∧
    (cfg.allowedTables = [] →
      isTableAllowed cfg c s t = false ∧ filterTables cfg xs c s = xs) := by
  refine ⟨fun h => ⟨?_, ?_⟩, fun h => ⟨?_, ?_⟩, fun h => ⟨?_, ?_⟩⟩ <;>
    simp [isCatalogAllowed, isSchemaAllowed, isTableAllowed,
      filterCatalogs, filterSchemas, filterTables, h]

/-- C5 witness: the amended statement at the concrete empty-allowlist
configuration. -/
theorem C5_empty_allowlist_behaviour_witness :
    isCatalogAllowed cfgEmptyAllow ("x").data = false ∧
    filterCatalogs cfgEmptyAllow [("a").data] = [("a").data] :=
  (C5_empty_allowlist_behaviour cfgEmptyAllow ("x").data ("s").data ("t").data
    [("a").data]).1 rfl

/-- C8: evaluation of `isReadOnlyQuery` at the no-space-after-keyword
inputs of `TestIsReadOnlyQuery`.  The classifier returns `false` for all
three, because the anchored patterns require a `\b` word boundary after
the keyword and `selectid`, `showtables`, `describeusers` have none; the
repository's own test suite (and the specification) expect `true`.  The
last two conjuncts show the rejection comes from the read-only start
check: the sanitized query has no semicolon and no write keyword. -/
theorem C8_keyword_without_space :
    isReadOnlyQuery ("SELECTid, name FROM users").data = false ∧
    isReadOnlyQuery ("SHOWtables").data = false ∧
    isReadOnlyQuery ("DESCRIBEusers").data = false ∧
    (sanitizeQueryForKeywordDetection ("selectid, name from users").data).contains ';' = false ∧
    writeOperations.any
      (fun op => containsWord op
        (sanitizeQueryForKeywordDetection ("selectid, name from users").data)) = false ∧
    readOnlyKeywords.any
      (fun kw => readOnlyStart kw
        (sanitizeQueryForKeywordDetection ("selectid, name from users").data)) = false := by
  refine ⟨by decide, by decide, by decide, by decide, by decide, by decide⟩

/-- C1: for every token whose signature verifies under the configured
secret, validation succeeds exactly when the audience claim matches the
configured audience in the sense of the specification (single string equal,
or list containing it); an absent claim fails with the distinct
missing-claim error, a wrong single value and a non-containing list fail
with their respective audience errors — never success. -/
theorem C1_hmac_audience_validation (v : HMACValidator) (tok : HMACToken)
    (hsig : tok.signingSecret = v.secret) :
    ((∃ u, ValidateToken v tok = Except.ok u) ↔ audMatchesSpec v.audience tok.aud) ∧
    (tok.aud = AudClaim.absent →
      ValidateToken v tok =
        Except.error (("audience validation failed: ").data ++ ("missing audience claim").data)) ∧
    (∀ a, tok.aud = AudClaim.one a → a ≠ v.audience →
      ValidateToken v tok =
        Except.error (("audience validation failed: ").data
          ++ (("invalid audience: expected ").data ++ v.audience ++ (", got ").data ++ a))) ∧
    (∀ l, tok.aud = AudClaim.many l → v.audience ∉ l →
      ValidateToken v tok =
        Except.error (("audience validation failed: ").data
          ++ (("invalid audience: expected ").data ++ v.audience
            ++ (" not found in audience list").data))) := by
  have hv : (!(tok.signingSecret == v.secret)) = false := by simp [hsig]
  refine ⟨?_, ?_, ?_, ?_⟩
  · cases haud : tok.aud with
    | absent => simp [ValidateToken, validateAudience, hv, audMatchesSpec, haud]
    | one a =>
      by_cases hm : a = v.audience <;>
        simp [ValidateToken, validateAudience, hv, audMatchesSpec, haud, hm]
    | many l =>
      by_cases hm : v.audience ∈ l <;>
        simp [ValidateToken, validateAudience, hv, audMatchesSpec, haud, hm,
          List.elem_iff]
  · intro haud; simp [ValidateToken, validateAudience, hv, haud]
  · intro a haud hm
    simp [ValidateToken, validateAudience, hv, haud, hm]
  · intro l haud hm
    simp [ValidateToken, validateAudience, hv, haud, List.elem_iff, hm]

/-- Concrete HMAC validator for witnesses. -/
def hmacValW : HMACValidator := ⟨("k1").data, ("aud1").data⟩

/-- Concrete token signed with the right secret but carrying no audience
claim. -/
def hmacTokW : HMACToken := ⟨("user1").data, AudClaim.absent, ("k1").data⟩

/-- C1 witness: a correctly signed token without an audience claim fails
with the missing-claim error. -/
theorem C1_hmac_audience_validation_witness :
    ValidateToken hmacValW hmacTokW =
      Except.error (("audience validation failed: ").data ++ ("missing audience claim").data) :=
  (C1_hmac_audience_validation hmacValW hmacTokW rfl).2.1 rfl

/-- A string without the separator splits into the single whole string. -/
theorem splitOnChar_of_not_mem (sep : Char) (l : GoStr) (h : sep ∉ l) :
    splitOnChar sep l = [l] := by
  induction l with
  | nil => rfl
  | cons c rest ih =>
    have hc : ¬ c = sep := fun e => h (e ▸ List.mem_cons_self c rest)
    have hr : sep ∉ rest := fun e => h (List.mem_cons_of_mem c e)
    simp [splitOnChar, hc, ih hr]

/-- Splitting a string of the form `a ++ sep :: b` with no separator in `a`
yields `a` followed by the split of `b`. -/
theorem splitOnChar_append (sep : Char) (a b : GoStr) (h : sep ∉ a) :
    splitOnChar sep (a ++ sep :: b) = a :: splitOnChar sep b := by
  induction a with
  | nil => simp [splitOnChar]
  | cons c rest ih =>
    have hc : ¬ c = sep := fun e => h (e ▸ List.mem_cons_self c rest)
    have hr : sep ∉ rest := fun e => h (List.mem_cons_of_mem c e)
    simp [splitOnChar, hc, ih hr]

/-- C6: with default catalog `c` and default schema `s` (no dots in the
names), the four call shapes `(c, s, t)`, `("", s, t)`, `("", "", "s.t")`
and `("", "", "c.s.t")` all resolve to the identity `(c, s, t)`, and
`GetTableSchema` — whose allowlist check reads only the resolved identity —
returns the same result for all four. -/
theorem C6_table_reference_resolution (cfg : TrinoConfig) (db : GoStr → Except GoStr Rows)
    (c s t : GoStr) (hc : cfg.catalog = c) (hs : cfg.schema = s)
    (h1 : '.' ∉ c) (h2 : '.' ∉ s) (h3 : '.' ∉ t) :
    resolveTable cfg c s t = (c, s, t) ∧
    resolveTable cfg [] s t = (c, s, t) ∧
    resolveTable cfg [] [] (s ++ '.' :: t) = (c, s, t) ∧
    resolveTable cfg [] [] (c ++ '.' :: s ++ '.' :: t) = (c, s, t) ∧
    GetTableSchema cfg db c s t = GetTableSchema cfg db [] [] (c ++ '.' :: s ++ '.' :: t) ∧
    GetTableSchema cfg db [] s t = GetTableSchema cfg db [] [] (c ++ '.' :: s ++ '.' :: t) ∧
    GetTableSchema cfg db [] [] (s ++ '.' :: t)
      = GetTableSchema cfg db [] [] (c ++ '.' :: s ++ '.' :: t) := by
  have e1 : resolveTable cfg c s t = (c, s, t) := by
    by_cases hc0 : c = [] <;> by_cases hs0 : s = [] <;>
      simp [resolveTable, splitOnChar_of_not_mem '.' t h3, hc, hs, hc0, hs0]
  have e2 : resolveTable cfg [] s t = (c, s, t) := by
    by_cases hs0 : s = [] <;>
      simp [resolveTable, splitOnChar_of_not_mem '.' t h3, hc, hs, hs0]
  have e3 : resolveTable cfg [] [] (s ++ '.' :: t) = (c, s, t) := by
    simp [resolveTable, splitOnChar_append '.' s t h2, splitOnChar_of_not_mem '.' t h3, hc]
  have e4 : resolveTable cfg [] [] (c ++ '.' :: s ++ '.' :: t) = (c, s, t) := by
    simp [resolveTable, splitOnChar_append '.' c (s ++ '.' :: t) h1,
      splitOnChar_append '.' s t h2, splitOnChar_of_not_mem '.' t h3]
  refine ⟨e1, e2, e3, e4, ?_, ?_, ?_⟩ <;> simp only [GetTableSchema, e1, e2, e3, e4]

/-- C6 witness: the four call shapes at the concrete defaults. -/
theorem C6_table_reference_resolution_witness :
    resolveTable cfgBase [] [] (("c").data ++ '.' :: ("s").data ++ '.' :: ("t").data)
      = (("c").data, ("s").data, ("t").data) :=
  (C6_table_reference_resolution cfgBase dbEmpty ("c").data ("s").data ("t").data
    rfl rfl (by decide) (by decide) (by decide)).2.2.2.1

/-- The normalized remainder on which `isReadOnlyQuery` performs its
checks: lower-cased, trimmed, newlines collapsed, then sanitized. -/
def normalizedQuery (q : GoStr) : GoStr :=
  sanitizeQueryForKeywordDetection
    (replaceAllChar '\r' ' ' (replaceAllChar '\n' ' ' (goToLower (goTrimSpace q))))

/-- Unfolding of `isReadOnlyQuery` in terms of the normalized remainder. -/
theorem isReadOnlyQuery_eq (q : GoStr) :
    isReadOnlyQuery q =
      (if (normalizedQuery q).contains ';' then false
       else if writeOperations.any (fun op => containsWord op (normalizedQuery q)) then false
       else readOnlyKeywords.any (fun kw => readOnlyStart kw (normalizedQuery q))) := rfl

/-- C3: the classifier rejects whenever, on the normalized remainder, a
semicolon remains, or any of the eighteen write keywords occurs as a whole
word anywhere, or the remainder does not begin (after optional leading
whitespace) with one of the read-only keywords — the fails-closed
direction. -/
theorem C3_classifier_rejections (q : GoStr)
    (h : (normalizedQuery q).contains ';' = true
      ∨ (∃ op ∈ writeOperations, containsWord op (normalizedQuery q) = true)
      ∨ (∀ kw ∈ readOnlyKeywords,
          kw.isPrefixOf ((normalizedQuery q).dropWhile regexSpaceChar) = false)) :
    isReadOnlyQuery q = false := by
  rw [isReadOnlyQuery_eq]
  by_cases hsemi : (normalizedQuery q).contains ';'
  · rw [if_pos hsemi]
  · by_cases hany : writeOperations.any (fun op => containsWord op (normalizedQuery q))
    · rw [if_neg hsemi, if_pos hany]
    · rcases h with h1 | h2 | h3
      · exact absurd h1 hsemi
      · exact absurd (List.any_eq_true.mpr (by simpa using h2)) hany
      · simp only [hsemi, hany, if_false, Bool.false_eq_true]
        refine List.any_eq_false.mpr ?_
        intro kw hkw
        simp [readOnlyStart, h3 kw hkw]

/-- C3 witness: a statement-stacking input (semicolon after sanitising) is
rejected. -/
theorem C3_classifier_rejections_witness :
    isReadOnlyQuery ("SELECT * FROM t; DROP TABLE t").data = false :=
  C3_classifier_rejections ("SELECT * FROM t; DROP TABLE t").data (Or.inl (by decide))

/-- Entries produced by `validateAllowlist` on success all have the
expected dot count. -/
theorem validateAllowlist_ok {envVar : GoStr} {l : List GoStr} {n : Nat} {u : Unit}
    (h : validateAllowlist envVar l n = Except.ok u) :
    ∀ e ∈ l, countChar '.' e = n := by
  intro e he
  unfold validateAllowlist at h
  split at h
  · cases h
  · rename_i hnone
    have := List.find?_eq_none.mp hnone e he
    simpa using this

/-- Reaching the head of a `dropWhile` result means the predicate fails
there. -/
theorem head?_dropWhile_false {p : Char → Bool} {l : GoStr} {c : Char}
    (h : (l.dropWhile p).head? = some c) : p c = false := by
  induction l with
  | nil => simp at h
  | cons a rest ih =>
    by_cases hp : p a
    · rw [List.dropWhile_cons_of_pos hp] at h
      exact ih h
    · rw [List.dropWhile_cons_of_neg hp] at h
      simp at h
      subst h
      simpa using hp

/-- A non-empty `dropWhile` result ends where the original list ends. -/
theorem getLast?_dropWhile {p : Char → Bool} {l : GoStr}
    (h : l.dropWhile p ≠ []) : (l.dropWhile p).getLast? = l.getLast? := by
  induction l with
  | nil => simp at h
  | cons a rest ih =>
    by_cases hp : p a
    · rw [List.dropWhile_cons_of_pos hp] at h ⊢
      have hrest : rest ≠ [] := by
        intro hr
        exact h (by simp [hr])
      rw [ih h]
      cases rest with
      | nil => exact absurd rfl hrest
      | cons b t => simp [List.getLast?_cons_cons]
    · rw [List.dropWhile_cons_of_neg hp]

/-- The first character of a trimmed string is not whitespace. -/
theorem goTrimSpace_head {s : GoStr} {c : Char}
    (h : (goTrimSpace s).head? = some c) : goIsSpace c = false := by
  unfold goTrimSpace at h
  rw [List.head?_reverse] at h
  have hne : (s.dropWhile goIsSpace).reverse.dropWhile goIsSpace ≠ [] := by
    intro he
    rw [he] at h
    simp at h
  rw [getLast?_dropWhile hne, List.getLast?_reverse] at h
  exact head?_dropWhile_false h

/-- The last character of a trimmed string is not whitespace. -/
theorem goTrimSpace_last {s : GoStr} {c : Char}
    (h : (goTrimSpace s).getLast? = some c) : goIsSpace c = false := by
  unfold goTrimSpace at h
  rw [List.getLast?_reverse] at h
  exact head?_dropWhile_false h

/-- Every entry produced by `parseAllowlist` is non-empty, and neither
starts nor ends with whitespace. -/
theorem parseAllowlist_mem {v e : GoStr} (h : e ∈ parseAllowlist v) :
    e ≠ [] ∧ (∀ c, e.head? = some c → goIsSpace c = false) ∧
      (∀ c, e.getLast? = some c → goIsSpace c = false) := by
  unfold parseAllowlist at h
  by_cases hv : v = []
  · simp [hv] at h
  · rw [if_neg hv] at h
    have hmem := List.mem_filter.mp h
    obtain ⟨x, _, hx⟩ := List.mem_map.mp hmem.1
    have hne : e ≠ [] := by
      intro he
      rw [he] at hmem
      simp at hmem
    refine ⟨hne, ?_, ?_⟩
    · intro c hc
      exact goTrimSpace_head (hx ▸ hc)
    · intro c hc
      exact goTrimSpace_last (hx ▸ hc)

/-- Inversion of a successful `checkOAuthConfig` run: the result is the
supplied configuration and both security guards were false. -/
theorem checkOAuthConfig_ok_inv {m p : GoStr} {e : Bool} {sec aud : GoStr}
    {c0 cfg : TrinoConfig} (h : checkOAuthConfig m p e sec aud c0 = Except.ok cfg) :
    cfg = c0 ∧ ((e && p == ("hmac").data && sec == []) = false) ∧
      ((e && !(p == ("hmac").data) && aud == []) = false) := by
  unfold checkOAuthConfig at h
  split at h
  · exact Except.noConfusion h
  · split at h
    · exact Except.noConfusion h
    · split at h
      · exact Except.noConfusion h
      · split at h
        · exact Except.noConfusion h
        · injection h with h2
          rename_i hmode hprov hsecret haud
          exact ⟨h2.symm, by simpa using hsecret, by simpa using haud⟩

/-- Inversion of a successful `NewTrinoConfig` run: the OAuth validation
guards were false and the allowlists come from `parseAllowlist` and passed
`validateAllowlist`. -/
theorem NewTrinoConfig_ok_inv {env : Env} {cfg : TrinoConfig}
    (h : NewTrinoConfig env = Except.ok cfg) :
    ((cfg.oauthEnabled && cfg.oauthProvider == ("hmac").data && cfg.jwtSecret == []) = false) ∧
    ((cfg.oauthEnabled && !(cfg.oauthProvider == ("hmac").data)
        && cfg.oidcAudience == []) = false) ∧
    (∃ s1 : GoStr, cfg.allowedCatalogs = parseAllowlist s1) ∧
    (∃ s2 : GoStr, cfg.allowedSchemas = parseAllowlist s2) ∧
    (∃ s3 : GoStr, cfg.allowedTables = parseAllowlist s3) ∧
    validateAllowlist ("TRINO_ALLOWED_SCHEMAS").data cfg.allowedSchemas 1 = Except.ok () ∧
    validateAllowlist ("TRINO_ALLOWED_TABLES").data cfg.allowedTables 2 = Except.ok () := by
  simp only [NewTrinoConfig] at h
  cases hval2 : validateAllowlist ("TRINO_ALLOWED_SCHEMAS").data
      (parseAllowlist (getEnv env ("TRINO_ALLOWED_SCHEMAS").data [])) 1 with
  | error e => rw [hval2] at h; exact Except.noConfusion h
  | ok u2 =>
  rw [hval2] at h
  cases hval3 : validateAllowlist ("TRINO_ALLOWED_TABLES").data
      (parseAllowlist (getEnv env ("TRINO_ALLOWED_TABLES").data [])) 2 with
  | error e => rw [hval3] at h; exact Except.noConfusion h
  | ok u3 =>
  rw [hval3] at h
  obtain ⟨rfl, hsecret, haud⟩ := checkOAuthConfig_ok_inv h
  refine ⟨?_, ?_, ⟨_, rfl⟩, ⟨_, rfl⟩, ⟨_, rfl⟩, ?_, ?_⟩
  · simpa using hsecret
  · simpa using haud
  · simpa using hval2
  · simpa using hval3

/-- C9: `NewTrinoConfig` never returns a configuration in which OAuth is
enabled with the hmac provider but the JWT signing secret is empty, nor one
in which OAuth is enabled with a non-hmac provider but the audience is
empty — in both situations construction fails with an error (so the
process does not start, rather than deferring the failure to a request). -/
theorem C9_config_construction_validation (env : Env) (cfg : TrinoConfig)
    (h : NewTrinoConfig env = Except.ok cfg) :
    (cfg.oauthEnabled = true → cfg.oauthProvider = ("hmac").data → cfg.jwtSecret ≠ []) ∧
    (cfg.oauthEnabled = true → cfg.oauthProvider ≠ ("hmac").data → cfg.oidcAudience ≠ []) := by
  obtain ⟨h1, h2, -⟩ := NewTrinoConfig_ok_inv h
  constructor
  · intro he hp hs
    rw [he, hp, hs] at h1
    simp at h1
  · intro he hp ha
    rw [he, ha] at h2
    have hp2 : (cfg.oauthProvider == ("hmac").data) = false := by
      simpa using hp
    rw [hp2] at h2
    simp at h2

/-- Environment enabling OAuth with the hmac provider and a secret set. -/
def envC9 : Env := fun k =>
  if k = ("OAUTH_ENABLED").data then some ("true").data
  else if k = ("JWT_SECRET").data then some ("sekrit").data
  else none

/-- The configuration built from `envC9`. -/
def cfgC9 : TrinoConfig :=
  { host := ("localhost").data, port := 8080, user := ("trino").data, password := [],
    catalog := ("memory").data, schema := ("default").data, scheme := ("https").data,
    ssl := true, sslInsecure := true, allowWriteQueries := false, queryTimeoutSec := 30,
    oauthEnabled := true, oauthMode := ("native").data, oauthProvider := ("hmac").data,
    jwtSecret := ("sekrit").data, oidcIssuer := [], oidcAudience := [], oidcClientID := [],
    oidcClientSecret := [], oauthRedirectURIs := [], allowedCatalogs := [],
    allowedSchemas := [], allowedTables := [] }

/-- C9 witness: a successfully constructed hmac configuration has a
non-empty secret. -/
theorem C9_config_construction_validation_witness : cfgC9.jwtSecret ≠ [] :=
  (C9_config_construction_validation envC9 cfgC9 rfl).1 rfl rfl

/-- C10: every configuration returned by `NewTrinoConfig` satisfies the
allowlist invariant: schema entries have exactly one dot, table entries
exactly two, and every entry of the three lists is non-empty with neither
leading nor trailing whitespace.  (The model is purely functional; the Go
code never writes to these fields after construction.) -/
theorem C10_allowlist_invariant (env : Env) (cfg : TrinoConfig)
    (h : NewTrinoConfig env = Except.ok cfg) :
    (∀ e ∈ cfg.allowedSchemas, countChar '.' e = 1) ∧
    (∀ e ∈ cfg.allowedTables, countChar '.' e = 2) ∧
    (∀ e ∈ cfg.allowedCatalogs ++ cfg.allowedSchemas ++ cfg.allowedTables,
      e ≠ [] ∧ (∀ c, e.head? = some c → goIsSpace c = false) ∧
        (∀ c, e.getLast? = some c → goIsSpace c = false)) := by
  obtain ⟨-, -, ⟨s1, hs1⟩, ⟨s2, hs2⟩, ⟨s3, hs3⟩, hv2, hv3⟩ := NewTrinoConfig_ok_inv h
  refine ⟨validateAllowlist_ok hv2, validateAllowlist_ok hv3, ?_⟩
  intro e he
  rcases List.mem_append.mp he with he2 | he2
  · rcases List.mem_append.mp he2 with he3 | he3
    · exact parseAllowlist_mem (hs1 ▸ he3)
    · exact parseAllowlist_mem (hs2 ▸ he3)
  · exact parseAllowlist_mem (hs3 ▸ he2)

/-- Environment with one schema allowlist entry and one table allowlist
entry. -/
def envC10 : Env := fun k =>
  if k = ("TRINO_ALLOWED_SCHEMAS").data then some ("c.s1").data
  else if k = ("TRINO_ALLOWED_TABLES").data then some ("c.s1.t1").data
  else none

/-- The configuration built from `envC10`. -/
def cfgC10 : TrinoConfig :=
  { host := ("localhost").data, port := 8080, user := ("trino").data, password := [],
    catalog := ("memory").data, schema := ("default").data, scheme := ("https").data,
    ssl := true, sslInsecure := true, allowWriteQueries := false, queryTimeoutSec := 30,
    oauthEnabled := false, oauthMode := ("native").data, oauthProvider := ("hmac").data,
    jwtSecret := [], oidcIssuer := [], oidcAudience := [], oidcClientID := [],
    oidcClientSecret := [], oauthRedirectURIs := [], allowedCatalogs := [],
    allowedSchemas := [("c.s1").data], allowedTables := [("c.s1.t1").data] }

/-- C10 witness: the invariant evaluated on the concrete schema entry of
`cfgC10`. -/
theorem C10_allowlist_invariant_witness : countChar '.' ("c.s1").data = 1 :=
  (C10_allowlist_invariant envC10 cfgC10 rfl).1 ("c.s1").data (by decide)

/-- Characters produced by `b64Char` lie in the URL-safe alphabet. -/
theorem b64Char_mem (n : Nat) : b64Char n ∈ b64Alphabet := by
  unfold b64Char List.getD
  cases hg : b64Alphabet.get? n with
  | none => simp [hg]; decide
  | some c =>
    simp [hg]
    exact List.get?_mem hg

/-- Alphabet characters decode back to their six-bit values. -/
theorem b64Val_b64Char : ∀ v : Nat, v < 64 → b64Val (b64Char v) = some v := by decide

/-- Alphabet characters are neither padding nor line breaks. -/
theorem b64Alphabet_clean : ∀ c ∈ b64Alphabet, ¬ c = '=' ∧ (!(c = '\r' || c = '\n')) = true := by
  decide

/-- No `b64Char` output is the padding character. -/
theorem b64Char_ne_pad (n : Nat) : ¬ b64Char n = '=' :=
  (b64Alphabet_clean (b64Char n) (b64Char_mem n)).1

/-- No character of an encoded string is a carriage return or newline. -/
theorem b64Encode_no_crlf : ∀ bs : List Nat, ∀ c ∈ b64Encode bs,
    (!(c = '\r' || c = '\n')) = true
  | [], c, hc => by simp [b64Encode] at hc
  | [b0], c, hc => by
    simp only [b64Encode, List.mem_cons, List.not_mem_nil, or_false] at hc
    rcases hc with h | h | h | h <;> subst h <;>
      first
        | exact (b64Alphabet_clean _ (b64Char_mem _)).2
        | decide
  | [b0, b1], c, hc => by
    simp only [b64Encode, List.mem_cons, List.not_mem_nil, or_false] at hc
    rcases hc with h | h | h | h <;> subst h <;>
      first
        | exact (b64Alphabet_clean _ (b64Char_mem _)).2
        | decide
  | b0 :: b1 :: b2 :: rest, c, hc => by
    simp only [b64Encode, List.cons_append, List.nil_append, List.mem_cons] at hc
    rcases hc with h | h | h | h | h
    · subst h; exact (b64Alphabet_clean _ (b64Char_mem _)).2
    · subst h; exact (b64Alphabet_clean _ (b64Char_mem _)).2
    · subst h; exact (b64Alphabet_clean _ (b64Char_mem _)).2
    · subst h; exact (b64Alphabet_clean _ (b64Char_mem _)).2
    · exact b64Encode_no_crlf rest c h

/-- Decoding inverts encoding on byte lists (all values below 256). -/
theorem b64DecodeQuads_encode : ∀ bs : List Nat, (∀ b ∈ bs, b < 256) →
    b64DecodeQuads (b64Encode bs) = some bs
  | [], _ => rfl
  | [b0], hb => by
    have h0 : b0 < 256 := hb b0 (by simp)
    have e0 := b64Val_b64Char (b0 / 4) (by omega)
    have e1 := b64Val_b64Char (b0 % 4 * 16) (by omega)
    simp only [b64Encode, b64DecodeQuads, e0, e1, if_pos rfl, and_self, if_true]
    have heq : b0 / 4 * 4 + b0 % 4 * 16 / 16 = b0 := by omega
    simp [heq]
    omega
  | [b0, b1], hb => by
    have h0 : b0 < 256 := hb b0 (by simp)
    have h1 : b1 < 256 := hb b1 (by simp)
    have e0 := b64Val_b64Char (b0 / 4) (by omega)
    have e1 := b64Val_b64Char (b0 % 4 * 16 + b1 / 16) (by omega)
    have e2 := b64Val_b64Char (b1 % 16 * 4) (by omega)
    have hne := b64Char_ne_pad (b1 % 16 * 4)
    simp only [b64Encode, b64DecodeQuads, e0, e1, e2, if_neg hne, if_pos rfl]
    have r0 : b0 / 4 * 4 + (b0 % 4 * 16 + b1 / 16) / 16 = b0 := by omega
    have r1 : (b0 % 4 * 16 + b1 / 16) % 16 * 16 + b1 % 16 * 4 / 4 = b1 := by omega
    simp [r0, r1]
    omega
  | b0 :: b1 :: b2 :: rest, hb => by
    have h0 : b0 < 256 := hb b0 (by simp)
    have h1 : b1 < 256 := hb b1 (by simp)
    have h2 : b2 < 256 := hb b2 (by simp)
    have ih := b64DecodeQuads_encode rest (fun b hbm => hb b (by simp [hbm]))
    have e0 := b64Val_b64Char (b0 / 4) (by omega)
    have e1 := b64Val_b64Char (b0 % 4 * 16 + b1 / 16) (by omega)
    have e2 := b64Val_b64Char (b1 % 16 * 4 + b2 / 64) (by omega)
    have e3 := b64Val_b64Char (b2 % 64) (by omega)
    have hne2 := b64Char_ne_pad (b1 % 16 * 4 + b2 / 64)
    have hne3 := b64Char_ne_pad (b2 % 64)
    simp only [b64Encode, List.cons_append, List.nil_append, b64DecodeQuads,
      e0, e1, e2, e3, if_neg hne2, if_neg hne3, ih, Option.map_some]
    have r0 : b0 / 4 * 4 + (b0 % 4 * 16 + b1 / 16) / 16 = b0 := by omega
    have r1 : (b0 % 4 * 16 + b1 / 16) % 16 * 16 + (b1 % 16 * 4 + b2 / 64) / 4 = b1 := by omega
    have r2 : (b1 % 16 * 4 + b2 / 64) % 4 * 64 + b2 % 64 = b2 := by omega
    simp [r0, r1, r2]
    exact ih

/-- The full decode (with CR/LF filtering) inverts encoding. -/
theorem b64Decode_encode (bs : List Nat) (hb : ∀ b ∈ bs, b < 256) :
    b64Decode (b64Encode bs) = some bs := by
  unfold b64Decode
  rw [List.filter_eq_self.mpr (b64Encode_no_crlf bs)]
  exact b64DecodeQuads_encode bs hb

/-- Every Unicode scalar value is below 0x110000. -/
theorem char_toNat_lt (c : Char) : c.toNat < 1114112 := by
  rcases c.valid with h | h
  · exact Nat.lt_trans h (by norm_num)
  · exact h.2

/-- UTF-8 bytes are below 256. -/
theorem utf8Encode_lt (s : GoStr) : ∀ b ∈ utf8Encode s, b < 256 := by
  intro b hb
  unfold utf8Encode at hb
  rw [List.mem_flatten] at hb
  obtain ⟨l, hl, hbl⟩ := hb
  rw [List.mem_map] at hl
  obtain ⟨c, _, hc⟩ := hl
  subst hc
  have hv := char_toNat_lt c
  simp only [utf8EncodeChar] at hbl
  split at hbl
  · simp at hbl; omega
  · split at hbl
    · simp at hbl
      rcases hbl with h | h <;> omega
    · split at hbl
      · simp at hbl
        rcases hbl with h | h | h <;> omega
      · simp at hbl
        rcases hbl with h | h | h | h <;> omega

/-- A scalar value lies below the surrogate range or above it. -/
theorem char_valid_ranges (c : Char) :
    c.toNat < 55296 ∨ (57344 ≤ c.toNat ∧ c.toNat < 1114112) := by
  rcases c.valid with h | h
  · exact Or.inl h
  · exact Or.inr ⟨h.1, h.2⟩

theorem utf8L_succ (fuel : Nat) (b0 : Nat) (rest : List Nat) :
    utf8L (fuel + 1) (b0 :: rest)
      = (runeStep b0 rest).1 :: utf8L fuel (rest.drop ((runeStep b0 rest).2 - 1)) := rfl

/-- With enough fuel, the lenient decoder inverts the encoder: every
encoded scalar is minimally encoded, is no surrogate and is in range, so
`runeStep` accepts each encoded sequence exactly. -/
theorem utf8L_encode : ∀ (s : GoStr) (fuel : Nat),
    (utf8Encode s).length ≤ fuel → utf8L fuel (utf8Encode s) = s := by
  intro s
  induction s with
  | nil =>
    intro fuel _
    rw [show utf8Encode [] = [] from rfl]
    cases fuel <;> rfl
  | cons c rest ih =>
    intro fuel hf
    have hv := char_valid_ranges c
    have hub := char_toNat_lt c
    have hofn : Char.ofNat c.toNat = c := Char.ofNat_toNat c
    have he : utf8Encode (c :: rest) = utf8EncodeChar c ++ utf8Encode rest := by
      simp [utf8Encode]
    rw [he] at hf ⊢
    by_cases h1 : c.toNat < 128
    · have hc : utf8EncodeChar c = [c.toNat] := by
        simp only [utf8EncodeChar, if_pos h1]
      rw [hc] at hf ⊢
      simp only [List.cons_append, List.nil_append, List.length_cons] at hf ⊢
      obtain ⟨f, rfl⟩ : ∃ f, fuel = f + 1 := ⟨fuel - 1, by omega⟩
      rw [utf8L_succ]
      have hr : runeStep c.toNat (utf8Encode rest) = (c, 1) := by
        simp only [runeStep, if_pos h1, hofn]
      rw [hr]
      show c :: utf8L f (utf8Encode rest) = c :: rest
      exact congrArg (List.cons c) (ih f (by omega))
    · by_cases h2 : c.toNat < 2048
      · have hc : utf8EncodeChar c = [192 + c.toNat / 64, 128 + c.toNat % 64] := by
          simp only [utf8EncodeChar, if_neg h1, if_pos h2]
        rw [hc] at hf ⊢
        simp only [List.cons_append, List.nil_append, List.length_cons] at hf ⊢
        obtain ⟨f, rfl⟩ : ∃ f, fuel = f + 1 := ⟨fuel - 1, by omega⟩
        rw [utf8L_succ]
        have d0 : ¬ (192 + c.toNat / 64 < 128) := by omega
        have d1 : ¬ (192 + c.toNat / 64 < 194) := by omega
        have d2 : 192 + c.toNat / 64 < 224 := by omega
        have d3 : 128 ≤ 128 + c.toNat % 64 ∧ 128 + c.toNat % 64 < 192 := by omega
        have hr : runeStep (192 + c.toNat / 64) ((128 + c.toNat % 64) :: utf8Encode rest)
            = (c, 2) := by
          simp only [runeStep, if_neg d0, if_neg d1, if_pos d2]
          rw [if_pos d3]
          have dv : (192 + c.toNat / 64 - 192) * 64 + (128 + c.toNat % 64 - 128)
              = c.toNat := by omega
          rw [dv, hofn]
        rw [hr]
        show c :: utf8L f (utf8Encode rest) = c :: rest
        exact congrArg (List.cons c) (ih f (by omega))
      · by_cases h3 : c.toNat < 65536
        · have hc : utf8EncodeChar c
              = [224 + c.toNat / 4096, 128 + c.toNat / 64 % 64, 128 + c.toNat % 64] := by
            simp only [utf8EncodeChar, if_neg h1, if_neg h2, if_pos h3]
          rw [hc] at hf ⊢
          simp only [List.cons_append, List.nil_append, List.length_cons] at hf ⊢
          obtain ⟨f, rfl⟩ : ∃ f, fuel = f + 1 := ⟨fuel - 1, by omega⟩
          rw [utf8L_succ]
          have d0 : ¬ (224 + c.toNat / 4096 < 128) := by omega
          have d1 : ¬ (224 + c.toNat / 4096 < 194) := by omega
          have d2 : ¬ (224 + c.toNat / 4096 < 224) := by omega
          have d3 : 224 + c.toNat / 4096 < 240 := by omega
          have dcond : (if 224 + c.toNat / 4096 = 224 then
                  160 ≤ 128 + c.toNat / 64 % 64 ∧ 128 + c.toNat / 64 % 64 < 192
                else if 224 + c.toNat / 4096 = 237 then
                  128 ≤ 128 + c.toNat / 64 % 64 ∧ 128 + c.toNat / 64 % 64 < 160
                else 128 ≤ 128 + c.toNat / 64 % 64 ∧ 128 + c.toNat / 64 % 64 < 192)
              ∧ (128 ≤ 128 + c.toNat % 64 ∧ 128 + c.toNat % 64 < 192) := by
            refine ⟨?_, by omega⟩
            by_cases hb : 224 + c.toNat / 4096 = 224
            · rw [if_pos hb]
              omega
            · rw [if_neg hb]
              by_cases hb2 : 224 + c.toNat / 4096 = 237
              · rw [if_pos hb2]
                rcases hv with hvl | hvr
                · omega
                · omega
              · rw [if_neg hb2]
                omega
          have hr : runeStep (224 + c.toNat / 4096)
              ((128 + c.toNat / 64 % 64) :: (128 + c.toNat % 64) :: utf8Encode rest)
              = (c, 3) := by
            simp only [runeStep, if_neg d0, if_neg d1, if_neg d2, if_pos d3]
            rw [if_pos dcond]
            have dv : (224 + c.toNat / 4096 - 224) * 4096
                + (128 + c.toNat / 64 % 64 - 128) * 64 + (128 + c.toNat % 64 - 128)
                = c.toNat := by omega
            rw [dv, hofn]
          rw [hr]
          show c :: utf8L f (utf8Encode rest) = c :: rest
          exact congrArg (List.cons c) (ih f (by omega))
        · have hc : utf8EncodeChar c
              = [240 + c.toNat / 262144, 128 + c.toNat / 4096 % 64,
                 128 + c.toNat / 64 % 64, 128 + c.toNat % 64] := by
            simp only [utf8EncodeChar, if_neg h1, if_neg h2, if_neg h3]
          rw [hc] at hf ⊢
          simp only [List.cons_append, List.nil_append, List.length_cons] at hf ⊢
          obtain ⟨f, rfl⟩ : ∃ f, fuel = f + 1 := ⟨fuel - 1, by omega⟩
          rw [utf8L_succ]
          have d0 : ¬ (240 + c.toNat / 262144 < 128) := by omega
          have d1 : ¬ (240 + c.toNat / 262144 < 194) := by omega
          have d2 : ¬ (240 + c.toNat / 262144 < 224) := by omega
          have d3 : ¬ (240 + c.toNat / 262144 < 240) := by omega
          have d4 : 240 + c.toNat / 262144 < 245 := by omega
          have dcond : (if 240 + c.toNat / 262144 = 240 then
                  144 ≤ 128 + c.toNat / 4096 % 64 ∧ 128 + c.toNat / 4096 % 64 < 192
                else if 240 + c.toNat / 262144 = 244 then
                  128 ≤ 128 + c.toNat / 4096 % 64 ∧ 128 + c.toNat / 4096 % 64 < 144
                else 128 ≤ 128 + c.toNat / 4096 % 64 ∧ 128 + c.toNat / 4096 % 64 < 192)
              ∧ (128 ≤ 128 + c.toNat / 64 % 64 ∧ 128 + c.toNat / 64 % 64 < 192)
              ∧ (128 ≤ 128 + c.toNat % 64 ∧ 128 + c.toNat % 64 < 192) := by
            refine ⟨?_, by omega, by omega⟩
            by_cases hb : 240 + c.toNat / 262144 = 240
            · rw [if_pos hb]
              omega
            · rw [if_neg hb]
              by_cases hb2 : 240 + c.toNat / 262144 = 244
              · rw [if_pos hb2]
                omega
              · rw [if_neg hb2]
                omega
          have hr : runeStep (240 + c.toNat / 262144)
              ((128 + c.toNat / 4096 % 64) :: (128 + c.toNat / 64 % 64)
                :: (128 + c.toNat % 64) :: utf8Encode rest)
              = (c, 4) := by
            simp only [runeStep, if_neg d0, if_neg d1, if_neg d2, if_neg d3, if_pos d4]
            rw [if_pos dcond]
            have dv : (240 + c.toNat / 262144 - 240) * 262144
                + (128 + c.toNat / 4096 % 64 - 128) * 4096
                + (128 + c.toNat / 64 % 64 - 128) * 64 + (128 + c.toNat % 64 - 128)
                = c.toNat := by omega
            rw [dv, hofn]
          rw [hr]
          show c :: utf8L f (utf8Encode rest) = c :: rest
          exact congrArg (List.cons c) (ih f (by omega))

/-- The lenient decode inverts the encode on whole strings. -/
theorem utf8DecodeLenient_encode (s : GoStr) :
    utf8DecodeLenient (utf8Encode s) = s := by
  unfold utf8DecodeLenient
  exact utf8L_encode s (utf8Encode s).length (Nat.le_refl _)

theorem hexVal_hexDigit : ∀ d : Nat, d < 16 → hexVal (hexDigit d) = some d := by decide

theorem psb_escape (fuel : Nat) (c : Char) (rest : GoStr) :
    parseStringBody (fuel + 1) (jsonEscapeChar c ++ rest)
      = (parseStringBody fuel rest).map (fun p => (c :: p.1, p.2)) := by
  unfold jsonEscapeChar
  by_cases h1 : c = dqChar
  · subst h1; rfl
  rw [if_neg h1]
  by_cases h2 : c = '\\'
  · subst h2; rfl
  rw [if_neg h2]
  by_cases h3 : c = '\n'
  · subst h3; rfl
  rw [if_neg h3]
  by_cases h4 : c = '\r'
  · subst h4; rfl
  rw [if_neg h4]
  by_cases h5 : c = '\t'
  · subst h5; rfl
  rw [if_neg h5]
  by_cases h32 : c.toNat < 32
  · rw [if_pos h32]
    have e1 := hexVal_hexDigit (c.toNat / 16) (by omega)
    have e2 := hexVal_hexDigit (c.toNat % 16) (by omega)
    rw [List.append_assoc]
    rw [show ("\\u00").data = ['\\', 'u', '0', '0'] from rfl]
    rw [List.cons_append, List.cons_append, List.cons_append, List.cons_append,
      List.cons_append, List.cons_append, List.nil_append]
    rw [parseStringBody.eq_def]
    simp [parseHex4, e1, e2, show ¬ ('\\' : Char) = dqChar from by decide,
      show ¬ ('u' : Char) = dqChar from by decide, show hexVal '0' = some 0 from by decide]
    have hd : c.toNat / 16 * 16 + c.toNat % 16 = c.toNat := by omega
    rw [hd, if_pos (Or.inl (show c.toNat < 55296 by omega)), Char.ofNat_toNat]
  rw [if_neg h32]
  by_cases h6 : c = '<'
  · subst h6; rfl
  rw [if_neg h6]
  by_cases h7 : c = '>'
  · subst h7; rfl
  rw [if_neg h7]
  by_cases h8 : c = '&'
  · subst h8; rfl
  rw [if_neg h8]
  by_cases h9 : c = Char.ofNat 8232
  · subst h9; rfl
  rw [if_neg h9]
  by_cases h10 : c = Char.ofNat 8233
  · subst h10; rfl
  rw [if_neg h10]
  rw [List.cons_append, List.nil_append, parseStringBody.eq_def]
  simp [h1, h2, h32]

/-- Escape sequences are at least one character long. -/
theorem jsonEscapeChar_length_pos (c : Char) : 0 < (jsonEscapeChar c).length := by
  unfold jsonEscapeChar
  by_cases h1 : c = dqChar
  · rw [if_pos h1]; decide
  rw [if_neg h1]
  by_cases h2 : c = '\\'
  · rw [if_pos h2]; decide
  rw [if_neg h2]
  by_cases h3 : c = '\n'
  · rw [if_pos h3]; decide
  rw [if_neg h3]
  by_cases h4 : c = '\r'
  · rw [if_pos h4]; decide
  rw [if_neg h4]
  by_cases h5 : c = '\t'
  · rw [if_pos h5]; decide
  rw [if_neg h5]
  by_cases h32 : c.toNat < 32
  · rw [if_pos h32]; simp
  rw [if_neg h32]
  by_cases h6 : c = '<'
  · rw [if_pos h6]; decide
  rw [if_neg h6]
  by_cases h7 : c = '>'
  · rw [if_pos h7]; decide
  rw [if_neg h7]
  by_cases h8 : c = '&'
  · rw [if_pos h8]; decide
  rw [if_neg h8]
  by_cases h9 : c = Char.ofNat 8232
  · rw [if_pos h9]; decide
  rw [if_neg h9]
  by_cases h10 : c = Char.ofNat 8233
  · rw [if_pos h10]; decide
  rw [if_neg h10]
  simp

/-- The escaped body is at least as long as the source string. -/
theorem jsonEscaped_length (s : GoStr) : s.length ≤ ((s.map jsonEscapeChar).flatten).length := by
  induction s with
  | nil => simp
  | cons c rest ih =>
    simp only [List.map_cons, List.flatten_cons, List.length_append, List.length_cons]
    have := jsonEscapeChar_length_pos c
    omega

/-- Parsing the escaped body followed by a closing quote recovers the
source string, given sufficient fuel. -/
theorem psb_quote (s : GoStr) : ∀ fuel, s.length + 1 ≤ fuel → ∀ rest,
    parseStringBody fuel ((s.map jsonEscapeChar).flatten ++ dqChar :: rest)
      = some (s, rest) := by
  induction s with
  | nil =>
    intro fuel hf rest
    obtain ⟨f, rfl⟩ : ∃ f, fuel = f + 1 := ⟨fuel - 1, by omega⟩
    simp only [List.map_nil, List.flatten_nil, List.nil_append]
    rw [parseStringBody.eq_def]
    simp
  | cons c rest2 ih =>
    intro fuel hf rest
    obtain ⟨f, rfl⟩ : ∃ f, fuel = f + 1 := ⟨fuel - 1, by omega⟩
    simp only [List.map_cons, List.flatten_cons, List.append_assoc]
    rw [psb_escape f c ((rest2.map jsonEscapeChar).flatten ++ dqChar :: rest)]
    rw [ih f (by simp at hf; omega) rest]
    rfl

/-- Parsing a JSON string literal produced by `jsonQuote` recovers the
source string and the remainder. -/
theorem parseJSONString_quote (s : GoStr) (rest : GoStr) :
    parseJSONString (jsonQuote s ++ rest) = some (s, rest) := by
  unfold jsonQuote parseJSONString
  simp only [List.cons_append, List.append_assoc, List.cons_append, List.nil_append]
  rw [if_pos trivial]
  exact psb_quote s _ (by rw [List.length_append, List.length_cons]; have := jsonEscaped_length s; omega) rest

/-- A member value written as a quoted string parses like a string
literal. -/
theorem parseValue_quote (s : GoStr) (rest : GoStr) :
    parseValue (jsonQuote s ++ rest) = some (s, rest) := by
  have he : jsonQuote s ++ rest
      = dqChar :: ((s.map jsonEscapeChar).flatten ++ [dqChar] ++ rest) := by
    simp [jsonQuote]
  rw [he]
  simp only [parseValue]
  rw [if_pos trivial]
  rw [← he]
  exact parseJSONString_quote s rest

theorem parseMembers_succ (fuel : Nat) (s : GoStr) :
    parseMembers (fuel + 1) s =
      (match parseJSONString s with
       | none => none
       | some (k, r1) =>
         match r1.dropWhile jsonWs with
         | c :: r2 =>
           if c = ':' then
             match parseValue (r2.dropWhile jsonWs) with
             | none => none
             | some (v, r3) =>
               match r3.dropWhile jsonWs with
               | d :: r4 =>
                 if d = ',' then
                   (parseMembers fuel (r4.dropWhile jsonWs)).map
                     (fun p => ((k, v) :: p.1, p.2))
                 else if d = rbChar then some ([(k, v)], r4)
                 else none
               | [] => none
           else none
         | [] => none) := rfl

theorem dropWhile_jsonWs_quote (v : GoStr) (rest : GoStr) :
    (jsonQuote v ++ rest).dropWhile jsonWs = jsonQuote v ++ rest := by
  have he : jsonQuote v ++ rest = dqChar :: ((v.map jsonEscapeChar).flatten ++ [dqChar] ++ rest) := by
    simp [jsonQuote]
  rw [he, List.dropWhile_cons_of_neg (by decide)]

theorem parseMembers_one (fuel : Nat) (k v : GoStr) :
    parseMembers (fuel + 1) (jsonQuote k ++ ':' :: (jsonQuote v ++ [rbChar]))
      = some ([(k, v)], []) := by
  rw [parseMembers_succ]
  simp only [parseJSONString_quote k (':' :: (jsonQuote v ++ [rbChar]))]
  simp only [List.dropWhile_cons_of_neg (show ¬ jsonWs ':' = true from by decide)]
  rw [if_pos trivial]
  simp only [dropWhile_jsonWs_quote v [rbChar], parseValue_quote v [rbChar]]
  simp only [List.dropWhile_cons_of_neg (show ¬ jsonWs rbChar = true from by decide)]
  rw [if_neg (show ¬ rbChar = ',' from by decide), if_pos trivial]

theorem parseMembers_two (fuel : Nat) (k1 v1 k2 v2 : GoStr) :
    parseMembers (fuel + 2)
        (jsonQuote k1 ++ ':' :: (jsonQuote v1 ++ ',' :: (jsonQuote k2 ++ ':' :: (jsonQuote v2 ++ [rbChar]))))
      = some ([(k1, v1), (k2, v2)], []) := by
  rw [parseMembers_succ]
  simp only [parseJSONString_quote k1
    (':' :: (jsonQuote v1 ++ ',' :: (jsonQuote k2 ++ ':' :: (jsonQuote v2 ++ [rbChar]))))]
  simp only [List.dropWhile_cons_of_neg (show ¬ jsonWs ':' = true from by decide)]
  rw [if_pos trivial]
  simp only [dropWhile_jsonWs_quote v1 (',' :: (jsonQuote k2 ++ ':' :: (jsonQuote v2 ++ [rbChar])))]
  simp only [parseValue_quote v1 (',' :: (jsonQuote k2 ++ ':' :: (jsonQuote v2 ++ [rbChar])))]
  simp only [List.dropWhile_cons_of_neg (show ¬ jsonWs ',' = true from by decide)]
  rw [if_pos trivial]
  simp only [dropWhile_jsonWs_quote k2 (':' :: (jsonQuote v2 ++ [rbChar]))]
  rw [parseMembers_one fuel k2 v2]
  rfl

theorem jsonQuote_cons (v : GoStr) (rest : GoStr) :
    jsonQuote v ++ rest = dqChar :: ((v.map jsonEscapeChar).flatten ++ [dqChar] ++ rest) := by
  simp [jsonQuote]

theorem unmarshal_marshal (st rd : GoStr) :
    unmarshalStringMap (jsonMarshalState st rd)
      = some [(("redirect").data, rd), (("state").data, st)] := by
  have harg : jsonMarshalState st rd
      = lbChar :: (jsonQuote ("redirect").data
          ++ ':' :: (jsonQuote rd ++ ',' :: (jsonQuote ("state").data
          ++ ':' :: (jsonQuote st ++ [rbChar])))) := by
    simp [jsonMarshalState, List.append_assoc]
  rw [harg]
  simp only [unmarshalStringMap]
  rw [List.dropWhile_cons_of_neg (show ¬ jsonWs lbChar = true from by decide)]
  dsimp only []
  rw [if_pos rfl]
  rw [dropWhile_jsonWs_quote]
  rw [jsonQuote_cons ("redirect").data]
  dsimp only []
  rw [if_neg (show ¬ dqChar = rbChar from by decide)]
  rw [← jsonQuote_cons ("redirect").data]
  have hlen : ∀ X : GoStr, (jsonQuote ("redirect").data ++ X).length + 1
      = ((jsonQuote ("redirect").data ++ X).length - 1) + 2 := by
    intro X
    simp [jsonQuote]
  rw [hlen]
  rw [parseMembers_two]
  dsimp only []
  rw [if_pos (by decide : List.dropWhile jsonWs ([] : GoStr) = [])]

/-- Full decode inverts the full encode of the proxy-mode state. -/
theorem decodeState_encode (st rd : GoStr) :
    decodeStateStructured (encodeStateParam st rd) = some (st, rd) := by
  unfold decodeStateStructured encodeStateParam
  rw [b64Decode_encode _ (utf8Encode_lt _)]
  dsimp only []
  rw [utf8DecodeLenient_encode]
  rw [unmarshal_marshal]
  dsimp only [mapGet]
  simp [show (("state").data == ("redirect").data) = false from by decide]

/-- A string contains a character exactly when its count is positive. -/
theorem contains_pos_count (ch : Char) (s : GoStr) :
    s.contains ch = true ↔ 0 < countChar ch s := by
  induction s with
  | nil => simp [countChar]
  | cons c rest ih =>
    by_cases hc : c = ch
    · subst hc
      simp [countChar, List.filter_cons]
    · have hc2 : (ch == c) = false := by
        simp only [beq_eq_false_iff_ne, ne_eq]
        exact fun e => hc e.symm
      simp only [List.contains_cons, hc2, Bool.false_or, countChar, List.filter_cons]
      rw [if_neg (show ¬ decide (c = ch) = true from by simp [hc])]
      exact ih

/-- The first part of a split never contains the separator. -/
theorem splitOnce_first (ch : Char) (s : GoStr) :
    (splitOnceChar ch s).1.contains ch = false := by
  induction s with
  | nil => rfl
  | cons c rest ih =>
    by_cases hc : c = ch
    · simp [splitOnceChar, hc]
    · simp only [splitOnceChar, if_neg hc, List.contains_cons]
      rw [ih]
      simp
      exact fun e => hc e.symm

/-- The second part of a split holds all remaining separators. -/
theorem splitOnce_second_count (ch : Char) (s : GoStr) (h : s.contains ch = true) :
    countChar ch (splitOnceChar ch s).2 + 1 = countChar ch s := by
  induction s with
  | nil => simp at h
  | cons c rest ih =>
    by_cases hc : c = ch
    · subst hc
      simp [splitOnceChar, countChar, List.filter_cons]
    · have hrest : rest.contains ch = true := by
        simp only [List.contains_cons] at h
        rcases Bool.or_eq_true_iff.mp h with h2 | h2
        · have h3 : ch = c := by simpa using h2
          exact absurd h3.symm hc
        · exact h2
      simp only [splitOnceChar, if_neg hc, countChar, List.filter_cons]
      rw [if_neg (show ¬ decide (c = ch) = true from by simp [hc])]
      exact ih hrest

/-- Reduction of `HandleCallback` in proxy mode with a code and no provider
error. -/
theorem handleCallback_proxy (cfg : OAuth2Config) (code state : GoStr)
    (hr : ¬ cfg.redirectURI = []) (hc : ¬ code = []) :
    HandleCallback cfg code state [] [] =
      (match decodeStateStructured state with
       | some p =>
         CallbackAction.redirect (p.2 ++ ("?code=").data ++ code ++ ("&state=").data ++ p.1)
       | none =>
         if state.contains '|' then
           if (splitOnceChar '|' state).1.contains '|'
               || (splitOnceChar '|' state).2.contains '|' then
             CallbackAction.successPage code state
           else
             CallbackAction.redirect ((splitOnceChar '|' state).2 ++ ("?code=").data ++ code
               ++ ("&state=").data ++ (splitOnceChar '|' state).1)
         else CallbackAction.successPage code state) := by
  unfold HandleCallback
  rw [if_neg (show ¬ (!(([] : GoStr) == [])) = true from by decide)]
  rw [if_neg (show ¬ (code == ([] : GoStr)) = true from by simpa using hc)]
  rw [if_pos (show (!(cfg.redirectURI == ([] : GoStr))) = true from by simpa using hr)]

/-- C7: (a) the proxy-mode state parameter round-trips: decoding the
authorize-time encoding recovers the client state and redirect URI exactly,
and the callback then redirects to the original client redirect URI with
the code and original state; (b) when the structured decoding fails and the
state does not contain exactly one pipe, the callback shows the fallback
success page; (c) when the structured decoding fails and the state contains
exactly one pipe — its two parts may be empty — the legacy format is
honoured and the callback redirects. -/
theorem C7_proxy_state_handling :
    (∀ st rd, decodeStateStructured (encodeStateParam st rd) = some (st, rd)) ∧
    (∀ (cfg : OAuth2Config) (code st rd : GoStr), ¬ cfg.redirectURI = [] → ¬ code = [] →
      HandleCallback cfg code (encodeStateParam st rd) [] [] =
        CallbackAction.redirect (rd ++ ("?code=").data ++ code ++ ("&state=").data ++ st)) ∧
    (∀ (cfg : OAuth2Config) (code state : GoStr), ¬ cfg.redirectURI = [] → ¬ code = [] →
      decodeStateStructured state = none → countChar '|' state ≠ 1 →
      HandleCallback cfg code state [] [] = CallbackAction.successPage code state) ∧
    (∀ (cfg : OAuth2Config) (code state : GoStr), ¬ cfg.redirectURI = [] → ¬ code = [] →
      decodeStateStructured state = none → countChar '|' state = 1 →
      HandleCallback cfg code state [] [] =
        CallbackAction.redirect ((splitOnceChar '|' state).2 ++ ("?code=").data ++ code
          ++ ("&state=").data ++ (splitOnceChar '|' state).1)) := by
  refine ⟨fun st rd => decodeState_encode st rd, ?_, ?_, ?_⟩
  · intro cfg code st rd hr hc
    rw [handleCallback_proxy cfg code _ hr hc, decodeState_encode]
  · intro cfg code state hr hc hdec hcount
    rw [handleCallback_proxy cfg code state hr hc, hdec]
    dsimp only []
    cases hct : state.contains '|' with
    | false => simp [hct]
    | true =>
      have h1 : 0 < countChar '|' state := (contains_pos_count '|' state).mp hct
      have h2 := splitOnce_second_count '|' state hct
      have h3 : 0 < countChar '|' (splitOnceChar '|' state).2 := by omega
      have h4 : (splitOnceChar '|' state).2.contains '|' = true :=
        (contains_pos_count '|' _).mpr h3
      rw [if_pos rfl, h4, if_pos (Bool.or_true _)]
  · intro cfg code state hr hc hdec hcount
    rw [handleCallback_proxy cfg code state hr hc, hdec]
    dsimp only []
    have hct : state.contains '|' = true :=
      (contains_pos_count '|' state).mpr (by omega)
    have h2 := splitOnce_second_count '|' state hct
    have h5 : (splitOnceChar '|' state).2.contains '|' = false := by
      cases hq : (splitOnceChar '|' state).2.contains '|' with
      | false => rfl
      | true =>
        have := (contains_pos_count '|' _).mp hq
        omega
    rw [if_pos hct, splitOnce_first, h5, if_neg (by decide : ¬ (false || false) = true)]

/-- Proxy-mode callback configuration for the concrete instances. -/
def cfgProxy : OAuth2Config :=
  ⟨true, ("okta").data, ("https://srv/oauth/callback").data, [], [], [], []⟩

/-- C7 counterexample: the state value `"|"` fails the structured decoding
and is not of the claimed legacy format (its two parts around the single
pipe are empty, not non-empty), so by the claim the callback should show
the fallback completion page; the code instead treats it as legacy and
redirects (to an empty redirect URI), not showing the fallback page. -/
theorem C7_proxy_state_handling_counterexample :
    decodeStateStructured ("|").data = none ∧
    countChar '|' ("|").data = 1 ∧
    isSuccessPage (HandleCallback cfgProxy ("c0").data ("|").data [] []) = false := by
  refine ⟨rfl, by decide, by decide⟩

/-- C7 witness: the round trip and redirect at a concrete client state and
redirect URI. -/
theorem C7_proxy_state_handling_witness :
    HandleCallback cfgProxy ("c0").data
        (encodeStateParam ("abc").data ("https://client/cb").data) [] []
      = CallbackAction.redirect (("https://client/cb").data ++ ("?code=").data
          ++ ("c0").data ++ ("&state=").data ++ ("abc").data) :=
  C7_proxy_state_handling.2.1 cfgProxy ("c0").data ("abc").data ("https://client/cb").data
    (by decide) (by decide)
